import Mathlib

/-!
# Verification of the xelis-vm core against its specification

This file gives a shallow embedding, in Lean 4, of the parts of the
xelis-vm repository that the specification's claims are about:

* the bytecode opcode set (`src/bytecode/src/opcode.rs`);
* the newer type system and value layer (`src/types/src/types/mod.rs`,
  `src/types/src/values.rs`);
* the tree-walking interpreter (`src/src/interpreter/mod.rs`).

Rust machine integers are modelled as `Nat` with explicit reductions
modulo `2^w` exactly where the source truncates or overflows; fallible
Rust code returns `Except`/`Option`; a Rust panic (an unwind, not an
error value) is modelled by a dedicated `rustPanic` outcome.
-/

namespace Bytecode

/-- The bytecode opcode set, from `src/bytecode/src/opcode.rs`. -/
inductive OpCode where
  | Constant
  | MemoryLoad
  | MemorySet
  | SubLoad
  | Pop
  | Copy
  | Copy2
  | Swap
  | Swap2
  | Jump
  | JumpIfFalse
  | IterableLength
  | IteratorBegin
  | IteratorNext
  | IteratorEnd
  | Return
  | ArrayCall
  | Cast
  | InvokeChunk
  | SysCall
  | NewArray
  | NewStruct
  | Add
  | Sub
  | Mul
  | Div
  | Mod
  | Pow
  | And
  | Or
  | Xor
  | Shl
  | Shr
  | Eq
  | Neg
  | Gt
  | Lt
  | Gte
  | Lte
  | Assign
  | AssignAdd
  | AssignSub
  | AssignMul
  | AssignDiv
  | AssignMod
  | AssignPow
  | AssignAnd
  | AssignOr
  | AssignXor
  | AssignShl
  | AssignShr
  | Inc
  | Dec
  | NewRange
  deriving DecidableEq, Repr

namespace OpCode

/-- `OpCode::as_byte`: the fixed byte of each opcode (a `u8`, modelled as `Nat`). -/
def as_byte : OpCode → Nat
  | .Constant => 0
  | .MemoryLoad => 1
  | .MemorySet => 2
  | .SubLoad => 3
  | .Pop => 4
  | .Copy => 5
  | .Copy2 => 6
  | .Swap => 7
  | .Swap2 => 8
  | .Jump => 9
  | .JumpIfFalse => 10
  | .IterableLength => 11
  | .IteratorBegin => 12
  | .IteratorNext => 13
  | .IteratorEnd => 14
  | .Return => 15
  | .ArrayCall => 16
  | .Cast => 17
  | .InvokeChunk => 18
  | .SysCall => 19
  | .NewArray => 20
  | .NewStruct => 21
  | .Add => 22
  | .Sub => 23
  | .Mul => 24
  | .Div => 25
  | .Mod => 26
  | .Pow => 27
  | .And => 28
  | .Or => 29
  | .Xor => 30
  | .Shl => 31
  | .Shr => 32
  | .Eq => 33
  | .Neg => 34
  | .Gt => 35
  | .Lt => 36
  | .Gte => 37
  | .Lte => 38
  | .Assign => 39
  | .AssignAdd => 40
  | .AssignSub => 41
  | .AssignMul => 42
  | .AssignDiv => 43
  | .AssignMod => 44
  | .AssignPow => 45
  | .AssignAnd => 46
  | .AssignOr => 47
  | .AssignXor => 48
  | .AssignShl => 49
  | .AssignShr => 50
  | .Inc => 51
  | .Dec => 52
  | .NewRange => 53

/-- `OpCode::from_byte`: decode a byte; unknown bytes yield `none`. -/
def from_byte : Nat → Option OpCode
  | 0 => some .Constant
  | 1 => some .MemoryLoad
  | 2 => some .MemorySet
  | 3 => some .SubLoad
  | 4 => some .Pop
  | 5 => some .Copy
  | 6 => some .Copy2
  | 7 => some .Swap
  | 8 => some .Swap2
  | 9 => some .Jump
  | 10 => some .JumpIfFalse
  | 11 => some .IterableLength
  | 12 => some .IteratorBegin
  | 13 => some .IteratorNext
  | 14 => some .IteratorEnd
  | 15 => some .Return
  | 16 => some .ArrayCall
  | 17 => some .Cast
  | 18 => some .InvokeChunk
  | 19 => some .SysCall
  | 20 => some .NewArray
  | 21 => some .NewStruct
  | 22 => some .Add
  | 23 => some .Sub
  | 24 => some .Mul
  | 25 => some .Div
  | 26 => some .Mod
  | 27 => some .Pow
  | 28 => some .And
  | 29 => some .Or
  | 30 => some .Xor
  | 31 => some .Shl
  | 32 => some .Shr
  | 33 => some .Eq
  | 34 => some .Neg
  | 35 => some .Gt
  | 36 => some .Lt
  | 37 => some .Gte
  | 38 => some .Lte
  | 39 => some .Assign
  | 40 => some .AssignAdd
  | 41 => some .AssignSub
  | 42 => some .AssignMul
  | 43 => some .AssignDiv
  | 44 => some .AssignMod
  | 45 => some .AssignPow
  | 46 => some .AssignAnd
  | 47 => some .AssignOr
  | 48 => some .AssignXor
  | 49 => some .AssignShl
  | 50 => some .AssignShr
  | 51 => some .Inc
  | 52 => some .Dec
  | 53 => some .NewRange
  | _ => none

end OpCode

end Bytecode

namespace Tc

/-!
## The `types` crate (`src/types/src/types/mod.rs`, `src/types/src/values.rs`)

`StructType` (defined in the crate's `struct.rs`, not under `src/`) is used
by the claims only through equality, so it is modelled as an opaque
identifier. The Rust enum `Type` is named `Ty` here because `Type` is a
Lean keyword; its constructors keep the source names.
-/

/-- Opaque struct-type identifier; the claims use it only via equality. -/
abbrev StructType := Nat

/-- The `Type` enum of `src/types/src/types/mod.rs` (renamed `Ty`). -/
inductive Ty where
  | Any
  | T
  | U8
  | U16
  | U32
  | U64
  | U128
  | U256
  | String
  | Bool
  | Struct (id : StructType)
  | Array (inner : Ty)
  | Optional (inner : Ty)
  | Range (inner : Ty)
  deriving DecidableEq, Repr

/-- `Type::primitive_type_from_byte`: transform a byte into a primitive type. -/
def Ty.primitive_type_from_byte : Nat → Option Ty
  | 0 => some .U8
  | 1 => some .U16
  | 2 => some .U32
  | 3 => some .U64
  | 4 => some .U128
  | 5 => some .U256
  | 6 => some .Bool
  | 7 => some .String
  | _ => none

/-- `Type::primitive_byte`: the byte representation of a primitive type. -/
def Ty.primitive_byte : Ty → Option Nat
  | .U8 => some 0
  | .U16 => some 1
  | .U32 => some 2
  | .U64 => some 3
  | .U128 => some 4
  | .U256 => some 5
  | .Bool => some 6
  | .String => some 7
  | _ => none

/-- `Type::is_primitive`. -/
def is_primitive (t : Ty) : Bool := (Ty.primitive_byte t).isSome

/-- `Type::is_number`. -/
def is_number : Ty → Bool
  | .U8 | .U16 | .U32 | .U64 | .U128 | .U256 => true
  | _ => false

/-- `Type::is_compatible_with`. The source matches on `other` first:
Range, then the `Any | T` arm, then Array, Optional, and a catch-all. -/
def is_compatible_with (s other : Ty) : Bool :=
  match other, s with
  | .Range inner, .Range inner2 => is_compatible_with inner inner2
  | .Range _, _ => false
  | .Any, _ => true
  | .T, _ => true
  | .Array sub_type, .Array sub => is_compatible_with sub sub_type
  | .Array sub_type, s2 => s2 = .Array sub_type || is_compatible_with s2 sub_type
  | .Optional sub_type, .Optional sub => is_compatible_with sub sub_type
  | .Optional sub_type, s2 => s2 = .Optional sub_type || is_compatible_with s2 sub_type
  | o, s2 => o = s2 || s2 = .T || s2 = .Any
termination_by sizeOf s + sizeOf other
decreasing_by all_goals (simp_wf <;> omega)

/-- `Type::is_castable_to`. -/
def is_castable_to (s other : Ty) : Bool :=
  match s with
  | .U8 =>
    match other with
    | .U16 | .U32 | .U64 | .U128 | .U256 | .String => true
    | _ => false
  | .U16 =>
    match other with
    | .U8 | .U32 | .U64 | .U128 | .U256 | .String => true
    | _ => false
  | .U32 =>
    match other with
    | .U8 | .U16 | .U64 | .U128 | .U256 | .String => true
    | _ => false
  | .U64 =>
    match other with
    | .U8 | .U16 | .U32 | .U128 | .U256 | .String => true
    | _ => false
  | .U128 =>
    match other with
    | .U8 | .U16 | .U32 | .U64 | .U256 | .String => true
    | _ => false
  | .U256 =>
    match other with
    | .U8 | .U16 | .U32 | .U64 | .U128 | .String => true
    | _ => false
  | .Bool =>
    match other with
    | .U8 | .U16 | .U32 | .U64 | .U128 | .U256 | .String => true
    | _ => false
  | _ => false



/-- 256-bit unsigned integer (the crate's `U256`), modelled as a natural
number; the operations that extract low bits reduce modulo the width. -/
abbrev U256 := Nat

/-- `U256::low_u64`. -/
def U256.low_u64 (n : U256) : Nat := n % 2 ^ 64

/-- `U256::low_u128`. -/
def U256.low_u128 (n : U256) : Nat := n % 2 ^ 128

/-- Rust's numeric `as` cast to a `w`-bit unsigned integer: keep the low
`w` bits. -/
def rust_as (w n : Nat) : Nat := n % 2 ^ w

/-- The `ValueError` enum of `src/types/src/values.rs`. -/
inductive ValueError where
  | InvalidValue (got : Value) (expected : Ty)
  | InvalidStructValue (v : Value)
  | InvalidCastType (t : Ty)
  | OperationNotNumberType
  | SubValue
  | OptionalIsNull
  | OutOfBounds (a b : Nat)
  | CastError
  | InvalidPrimitiveType
  | UnknownType

mutual

/-- The `Value` enum of `src/types/src/values.rs`. `ValueOwnable.Owned`
boxes a value; `ValueOwnable.Rc` is the shared, interior-mutable cell,
whose contents are modelled by value since the cast claims never alias. -/
inductive Value where
  | Null
  | U8 (n : Nat)
  | U16 (n : Nat)
  | U32 (n : Nat)
  | U64 (n : Nat)
  | U128 (n : Nat)
  | U256 (n : U256)
  | String (s : String)
  | Boolean (b : Bool)
  | Struct (fields : List ValueOwnable) (id : StructType)
  | Array (values : List ValueOwnable)
  | Optional (value : Option ValueOwnable)
  | Range (start stop : Value) (t : Ty)

inductive ValueOwnable where
  | Owned (v : Value)
  | Rc (v : Value)

end

/-- `Value::cast_to_u8` (truncating cast; `as` keeps low bits). -/
def cast_to_u8 : Value → Except ValueError Nat
  | .U8 n => .ok n
  | .U16 n => .ok (rust_as 8 n)
  | .U32 n => .ok (rust_as 8 n)
  | .U64 n => .ok (rust_as 8 n)
  | .U128 n => .ok (rust_as 8 n)
  | .U256 n => .ok (rust_as 8 (U256.low_u64 n))
  | .Boolean b => .ok (if b then 1 else 0)
  | _ => .error (.InvalidCastType .U8)

/-- `Value::cast_to_u16`. -/
def cast_to_u16 : Value → Except ValueError Nat
  | .U8 n => .ok (rust_as 16 n)
  | .U16 n => .ok n
  | .U32 n => .ok (rust_as 16 n)
  | .U64 n => .ok (rust_as 16 n)
  | .U128 n => .ok (rust_as 16 n)
  | .U256 n => .ok (rust_as 16 (U256.low_u64 n))
  | .Boolean b => .ok (if b then 1 else 0)
  | _ => .error (.InvalidCastType .U16)

/-- `Value::cast_to_u32`. Note: the source's error arm carries
`Type::U16`, not `Type::U32`; this is transcribed as-is. -/
def cast_to_u32 : Value → Except ValueError Nat
  | .U8 n => .ok (rust_as 32 n)
  | .U16 n => .ok (rust_as 32 n)
  | .U32 n => .ok n
  | .U64 n => .ok (rust_as 32 n)
  | .U128 n => .ok (rust_as 32 n)
  | .U256 n => .ok (rust_as 32 (U256.low_u64 n))
  | .Boolean b => .ok (if b then 1 else 0)
  | _ => .error (.InvalidCastType .U16)

/-- `Value::cast_to_u64`. -/
def cast_to_u64 : Value → Except ValueError Nat
  | .U8 n => .ok (rust_as 64 n)
  | .U16 n => .ok (rust_as 64 n)
  | .U32 n => .ok (rust_as 64 n)
  | .U64 n => .ok n
  | .U128 n => .ok (rust_as 64 n)
  | .U256 n => .ok (U256.low_u64 n)
  | .Boolean b => .ok (if b then 1 else 0)
  | _ => .error (.InvalidCastType .U64)

/-- `Value::cast_to_u128`. -/
def cast_to_u128 : Value → Except ValueError Nat
  | .U8 n => .ok (rust_as 128 n)
  | .U16 n => .ok (rust_as 128 n)
  | .U32 n => .ok (rust_as 128 n)
  | .U64 n => .ok (rust_as 128 n)
  | .U128 n => .ok n
  | .U256 n => .ok (U256.low_u128 n)
  | .Boolean b => .ok (if b then 1 else 0)
  | _ => .error (.InvalidCastType .U128)

/-- `Value::cast_to_u256` (every narrower integer widens via `U256::from`). -/
def cast_to_u256 : Value → Except ValueError Nat
  | .U8 n => .ok n
  | .U16 n => .ok n
  | .U32 n => .ok n
  | .U64 n => .ok n
  | .U128 n => .ok n
  | .U256 n => .ok n
  | .Boolean b => .ok (if b then 1 else 0)
  | _ => .error (.InvalidCastType .U256)

end Tc


namespace Interp

/-!
## The tree-walking interpreter (`src/src/interpreter/mod.rs`)

The interpreter source is under `src/`, but several modules it uses are
not: the old `types` module (its `Type`/`Value` enums), the AST module
(`Expression`, `Statement`, `Operator`), and the interpreter's `context`
and `variable` modules. Those are reconstructed here from their uses in
`interpreter/mod.rs` and, where the uses do not pin them down, modelled
from the spec (marked in the doc comments).

Widths of the old numeric variants: `Byte`/`Short`/`Int`/`Long` are
`u8`/`u16`/`u64`/`u128`. (`call_entry_function` returns `val.to_int()?`
as a `u64` with no conversion, and the `convert!` macro's `u32`
conversion used by the shift operators is fallible, which both require
`Int` = `u64`.)
-/

/-- The old `Type` enum (`crate::types`, not under `src/`), reconstructed
from the variants matched in `interpreter/mod.rs`. -/
inductive Ty where
  | Any
  | Byte
  | Short
  | Int
  | Long
  | Boolean
  | String
  | Struct (name : String)
  | Array (inner : Ty)
  deriving DecidableEq, Repr

/-- The old `Value` enum (`crate::types`, not under `src/`), reconstructed
from the variants built and matched in `interpreter/mod.rs`. A struct's
`HashMap<String, Value>` is modelled as an association list in insertion
order. -/
inductive Value where
  | Null
  | Byte (n : Nat)
  | Short (n : Nat)
  | Int (n : Nat)
  | Long (n : Nat)
  | Boolean (b : Bool)
  | String (s : String)
  | Struct (name : String) (fields : List (String × Value))
  | Array (values : List Value)
  deriving Repr

/-- The `InterpreterError` enum of `interpreter/mod.rs`. -/
inductive InterpreterError where
  | FunctionNotFound (name : String) (params : List Ty)
  | TypeNotFound (v : Value)
  | FunctionEntry (expected got : Bool)
  | LimitReached
  | NotImplemented
  | NoExitCode
  | ExpectedValue
  | InvalidNativeFunctionCall
  | ExpectedPath
  | UnexpectedInstanceType
  | ExpectedInstanceType
  | UnexpectedOperator
  | ExpectedStructType
  | NativeFunctionExpectedInstance
  | OverflowOccured
  | DivByZero
  | StructureNotFound (name : String)
  | StructureFieldNotFound (s f : String)
  | ExpectedValueType (t : Ty)
  | InvalidType (t : Ty)
  | OutOfBounds (a b : Nat)
  | InvalidRange (a b : Nat)
  | NoValueFoundAtIndex (i : Nat)
  | InvalidStructValue (v : Value)
  | InvalidValue (got : Value) (expected : Ty)
  | VariableNotFound (name : String)
  | VariableAlreadyExists (name : String)
  | NoScopeFound
  | ExpectedAssignOperator
  | OperationNotNumberType
  | CastNumberError
  | RecursiveLimitReached
  | InvalidCastType (t : Ty)
  deriving Repr

/-- Modelled from the spec: the AST `Operator` enum lives in the missing
`operator` module; its variants are those matched in `interpreter/mod.rs`. -/
inductive Operator where
  | Assign
  | AssignPlus
  | AssignMinus
  | AssignDivide
  | AssignMultiply
  | AssignModulo
  | AssignBitwiseXor
  | AssignBitwiseAnd
  | AssignBitwiseOr
  | AssignBitwiseLeft
  | AssignBitwiseRight
  | Equals
  | NotEquals
  | Plus
  | Minus
  | Divide
  | Multiply
  | Modulo
  | BitwiseXor
  | BitwiseAnd
  | BitwiseOr
  | BitwiseLeft
  | BitwiseRight
  | GreaterOrEqual
  | GreaterThan
  | LessOrEqual
  | LessThan
  | And
  | Or
  deriving DecidableEq, Repr

/-- `Operator::is_assignation` — modelled from the spec: true exactly for
the assignment family. -/
def is_assignation : Operator → Bool
  | .Assign | .AssignPlus | .AssignMinus | .AssignDivide | .AssignMultiply
  | .AssignModulo | .AssignBitwiseXor | .AssignBitwiseAnd | .AssignBitwiseOr
  | .AssignBitwiseLeft | .AssignBitwiseRight => true
  | _ => false

/-- `Operator::is_and_or_or` — modelled from the spec: true for the two
short-circuit operators. -/
def is_and_or_or : Operator → Bool
  | .And | .Or => true
  | _ => false

/-- `Operator::is_number_operator` — modelled from the spec (§4.D): the
arithmetic, bitwise and relational operators require numeric operands.
`Plus` is excluded (the evaluator handles string concatenation after the
numeric check) while `AssignPlus` is included (the evaluator carves out
an explicit `String` exception for it); plain `Assign`, equality and the
short-circuit operators accept any operands. -/
def is_number_operator : Operator → Bool
  | .Minus | .Divide | .Multiply | .Modulo
  | .BitwiseXor | .BitwiseAnd | .BitwiseOr | .BitwiseLeft | .BitwiseRight
  | .GreaterOrEqual | .GreaterThan | .LessOrEqual | .LessThan
  | .AssignPlus | .AssignMinus | .AssignDivide | .AssignMultiply
  | .AssignModulo | .AssignBitwiseXor | .AssignBitwiseAnd | .AssignBitwiseOr
  | .AssignBitwiseLeft | .AssignBitwiseRight => true
  | _ => false

/-- The AST `Expression` enum (missing `expressions` module), reconstructed
from the variants matched in `interpreter/mod.rs`. -/
inductive Expression where
  | FunctionCall (name : String) (parameters : List Expression)
  | ArrayConstructor (expressions : List Expression)
  | StructConstructor (name : String) (fields : List (String × Expression))
  | ArrayCall (e index : Expression)
  | IsNot (e : Expression)
  | SubExpression (e : Expression)
  | Ternary (condition left right : Expression)
  | Value (v : Value)
  | Variable (name : String)
  | Operator (op : Operator) (left right : Expression)
  | Path (left right : Expression)
  | Cast (e : Expression) (t : Ty)
  deriving Repr

/-- A `let`/`for`-init declaration (name, initializer, declared type);
also used for program constants, which carry the same fields. -/
structure DeclarationStatement where
  name : String
  value : Expression
  value_type : Ty
  deriving Repr

/-- The AST `Statement` enum (missing `expressions` module), reconstructed
from the variants matched in `interpreter/mod.rs`. -/
inductive Statement where
  | Expression (e : Expression)
  | Variable (decl : DeclarationStatement)
  | If (condition : Expression) (body : List Statement)
  | ElseIf (condition : Expression) (body : List Statement)
  | Else (body : List Statement)
  | For (decl : DeclarationStatement) (condition increment : Expression) (body : List Statement)
  | ForEach (name : String) (iterable : Expression) (body : List Statement)
  | While (condition : Expression) (body : List Statement)
  | Return (e : Option Expression)
  | Break
  | Continue
  | Scope (body : List Statement)
  deriving Repr

/-- The interpreter's `Variable` (missing `variable` module): a value
tagged with the declared type. -/
structure Variable where
  value : Value
  value_type : Ty
  deriving Repr

/-- Modelled from the spec (§3): the missing `context` module's `Context`
is a stack of scopes (newest first here) mapping names to variables, plus
the loop break/continue flags. -/
structure Context where
  scopes : List (List (String × Variable))
  loop_break : Bool
  loop_continue : Bool
  deriving Repr

/-- A fresh `Context` (no scopes, flags clear). -/
def Context.new : Context := ⟨[], false, false⟩

/-- The old `Struct` declaration: field name to type, in declaration
order (`HashMap` modelled as an association list). -/
structure Struct where
  fields : List (String × Ty)
  deriving Repr

/-- A native function: the host callback is modelled as a pure function
(host environment internals are out of the spec's scope). -/
structure NativeFn where
  name : String
  for_type : Option Ty
  parameters : List Ty
  on_call : Option Value → List Value → Except InterpreterError (Option Value)

/-- A user-defined function of the `Program`. -/
structure CustomFn where
  name : String
  for_type : Option Ty
  instance_name : Option String
  parameters : List (String × Ty)
  statements : List Statement
  is_entry : Bool
  return_type : Option Ty

/-- `FunctionType`: native or user-defined. -/
inductive FunctionType where
  | Native (f : NativeFn)
  | Custom (f : CustomFn)

/-- `FunctionType::get_name`. -/
def get_name : FunctionType → String
  | .Native f => f.name
  | .Custom f => f.name

/-- `FunctionType::for_type`. -/
def for_type : FunctionType → Option Ty
  | .Native f => f.for_type
  | .Custom f => f.for_type

/-- `FunctionType::get_parameters_count`. -/
def get_parameters_count : FunctionType → Nat
  | .Native f => f.parameters.length
  | .Custom f => f.parameters.length

/-- `FunctionType::get_parameters_types`. -/
def get_parameters_types : FunctionType → List Ty
  | .Native f => f.parameters
  | .Custom f => f.parameters.map (fun p => p.2)

/-- `FunctionType::is_entry` (only user functions can be entries). -/
def is_entry : FunctionType → Bool
  | .Native _ => false
  | .Custom f => f.is_entry

/-- The parser's `Program`: structures, constants, user functions. -/
structure Program where
  structures : List (String × Struct)
  constants : List DeclarationStatement
  functions : List FunctionType

/-- The host `Environment`: registered native functions and structures. -/
structure Environment where
  functions : List FunctionType
  structures : List (String × Struct)

/-- The `Interpreter` configuration (`program`, `max_expr`,
`max_recursive`, `env`; the mutable `State` is threaded separately). -/
structure Interpreter where
  program : Program
  max_expr : Nat
  max_recursive : Nat
  env : Environment

/-- The interpreter's mutable `State` behind the `RefCell`. -/
structure EState where
  count_expr : Nat
  recursive : Nat
  deriving Repr

/-- Outcome of a fallible interpreter step. `ok`/`err` mirror Rust's
`Result`; `rustPanic` models a Rust panic (an unwind, e.g. `%` by zero or
`todo!`); `outOfFuel` is an artifact of the embedding's fuel-based
termination measure and is never produced when the fuel exceeds the
actual recursion depth of a run. -/
inductive Res (α : Type) where
  | ok (a : α)
  | err (e : InterpreterError)
  | rustPanic
  | outOfFuel
  deriving Repr

/-- Monad structure on `Res` (short-circuiting on non-`ok` outcomes). -/
def Res.bind : Res α → (α → Res β) → Res β
  | .ok a, f => f a
  | .err e, _ => .err e
  | .rustPanic, _ => .rustPanic
  | .outOfFuel, _ => .outOfFuel

instance : Monad Res where
  pure := Res.ok
  bind := Res.bind

/-- Lift a Rust `Result` into `Res`. -/
def Res.ofExcept : Except InterpreterError α → Res α
  | .ok a => .ok a
  | .error e => .err e

/-- The evaluation monad: the interpreter's `RefCell<State>` and the
(unique) `Context` are threaded explicitly; the outcome short-circuits. -/
def M (α : Type) : Type := EState → Context → Res α × EState × Context

/-- `pure` for `M`. -/
def M.pure (a : α) : M α := fun st ctx => (.ok a, st, ctx)

/-- `bind` for `M`: sequencing with short-circuit on any non-`ok`
outcome, preserving the state and context at the point of failure. -/
def M.bind (m : M α) (f : α → M β) : M β := fun st ctx =>
  match m st ctx with
  | (.ok a, st1, ctx1) => f a st1 ctx1
  | (.err e, st1, ctx1) => (.err e, st1, ctx1)
  | (.rustPanic, st1, ctx1) => (.rustPanic, st1, ctx1)
  | (.outOfFuel, st1, ctx1) => (.outOfFuel, st1, ctx1)

instance : Monad M where
  pure := M.pure
  bind := M.bind

/-- Fail with an interpreter error (Rust `return Err(e)`). -/
def M.throw (e : InterpreterError) : M α := fun st ctx => (.err e, st, ctx)

/-- A Rust panic. -/
def M.panicM : M α := fun st ctx => (.rustPanic, st, ctx)

/-- Fuel exhaustion (embedding artifact). -/
def M.noFuel : M α := fun st ctx => (.outOfFuel, st, ctx)

/-- Lift a pure `Result`. -/
def M.liftE (x : Except InterpreterError α) : M α := fun st ctx => (Res.ofExcept x, st, ctx)

/-- Re-raise a captured outcome. -/
def M.liftRes (r : Res α) : M α := fun st ctx => (r, st, ctx)

/-- Read the state. -/
def M.getSt : M EState := fun st ctx => (.ok st, st, ctx)

/-- Replace the state. -/
def M.setSt (s : EState) : M Unit := fun _ ctx => (.ok (), s, ctx)

/-- Read the context. -/
def M.getCtx : M Context := fun st ctx => (.ok ctx, st, ctx)

/-- Replace the context. -/
def M.setCtx (c : Context) : M Unit := fun st _ => (.ok (), st, c)

/-- Capture a sub-computation's `Result` without `?`-propagation (Rust
`let res = ...;`). A panic still unwinds past the capture. -/
def M.tryM (m : M α) : M (Res α) := fun st ctx =>
  match m st ctx with
  | (.rustPanic, st1, ctx1) => (.rustPanic, st1, ctx1)
  | (.ok a, st1, ctx1) => (.ok (.ok a), st1, ctx1)
  | (.err e, st1, ctx1) => (.ok (.err e), st1, ctx1)
  | (.outOfFuel, st1, ctx1) => (.ok (.outOfFuel), st1, ctx1)

/-- Run a computation against a fresh `Context` (Rust
`Context::new()` inside `execute_function`); the caller's context is
untouched in every outcome. -/
def M.withNewCtx (m : M α) : M α := fun st ctx =>
  match m st Context.new with
  | (r, st1, _) => (r, st1, ctx)

/-- Association-list lookup (models `HashMap::get`). -/
def assocGet (l : List (String × α)) (k : String) : Option α :=
  match l with
  | [] => none
  | (k2, v) :: rest => if k2 = k then some v else assocGet rest k

/-- Association-list insert (models `HashMap::insert`): replace the
existing binding or append. -/
def assocSet (l : List (String × α)) (k : String) (v : α) : List (String × α) :=
  match l with
  | [] => [(k, v)]
  | (k2, v2) :: rest => if k2 = k then (k2, v) :: rest else (k2, v2) :: assocSet rest k v

/-- Association-list in-place modification (identity if absent). -/
def assocModify (l : List (String × α)) (k : String) (f : α → α) : List (String × α) :=
  match l with
  | [] => []
  | (k2, v2) :: rest => if k2 = k then (k2, f v2) :: rest else (k2, v2) :: assocModify rest k f

/-- Lookup through the scope stack, newest scope first (models the
source's reverse iteration over `scopes`). -/
def scopes_get (scopes : List (List (String × Variable))) (name : String) : Option Variable :=
  match scopes with
  | [] => none
  | sc :: rest =>
    match assocGet sc name with
    | some v => some v
    | none => scopes_get rest name

/-- Modify the variable in the newest scope that binds `name` (identity
when unbound). -/
def scopes_modify (scopes : List (List (String × Variable))) (name : String)
    (f : Variable → Variable) : List (List (String × Variable)) :=
  match scopes with
  | [] => []
  | sc :: rest =>
    if (assocGet sc name).isSome then assocModify sc name f :: rest
    else sc :: scopes_modify rest name f

/-- Modelled from the spec: `Context::has_variable` searches every scope. -/
def has_variable (ctx : Context) (name : String) : Bool :=
  (scopes_get ctx.scopes name).isSome

/-- Modelled from the spec: `Context::get_variable`. -/
def ctx_get_variable (ctx : Context) (name : String) : Except InterpreterError Variable :=
  match scopes_get ctx.scopes name with
  | some v => .ok v
  | none => .error (.VariableNotFound name)

/-- Modelled from the spec: `Context::register_variable` refuses a name
that already exists, and needs at least one scope. -/
def ctx_register_variable (ctx : Context) (name : String) (v : Variable) :
    Except InterpreterError Context :=
  if has_variable ctx name then .error (.VariableAlreadyExists name)
  else
    match ctx.scopes with
    | [] => .error .NoScopeFound
    | sc :: rest => .ok { ctx with scopes := assocSet sc name v :: rest }

/-- Modelled from the spec: `Context::set_variable_value` overwrites the
value of an existing variable. -/
def ctx_set_variable_value (ctx : Context) (name : String) (v : Value) :
    Except InterpreterError Context :=
  if has_variable ctx name then
    .ok { ctx with scopes := scopes_modify ctx.scopes name (fun va => { va with value := v }) }
  else .error (.VariableNotFound name)

/-- `Context::begin_scope`, lifted to `M`. -/
def begin_scope : M Unit := fun st ctx => (.ok (), st, { ctx with scopes := [] :: ctx.scopes })

/-- `Context::end_scope`, lifted to `M` (`NoScopeFound` when empty). -/
def end_scope : M Unit := fun st ctx =>
  match ctx.scopes with
  | [] => (.err .NoScopeFound, st, ctx)
  | _ :: rest => (.ok (), st, { ctx with scopes := rest })

/-- `register_variable` lifted to `M`. -/
def register_variableM (name : String) (v : Variable) : M Unit := fun st ctx =>
  match ctx_register_variable ctx name v with
  | .ok c => (.ok (), st, c)
  | .error e => (.err e, st, ctx)

/-- `set_variable_value` lifted to `M`. -/
def set_variable_valueM (name : String) (v : Value) : M Unit := fun st ctx =>
  match ctx_set_variable_value ctx name v with
  | .ok c => (.ok (), st, c)
  | .error e => (.err e, st, ctx)

/-- `Interpreter::increment_expr`: bump `count_expr`; fail with
`LimitReached` when the limit is enabled and the count has reached it. -/
def increment_expr (ip : Interpreter) : M Unit := fun st ctx =>
  let st1 := { st with count_expr := st.count_expr + 1 }
  if ip.max_expr != 0 && ip.max_expr ≤ st1.count_expr then (.err .LimitReached, st1, ctx)
  else (.ok (), st1, ctx)

/-- `Interpreter::add_count_expr`. -/
def add_count_expr (n : Nat) : M Unit := fun st ctx =>
  (.ok (), { st with count_expr := st.count_expr + n }, ctx)

/-!
### Numeric primitives

Rust's `overflowing_*` operations on a `w`-bit unsigned integer, with the
value as a `Nat` reduced mod `2^w` (`overflowing_shl`/`shr` mask the
shift amount by the width and flag overflow when it was out of range;
unsigned `overflowing_div` never overflows).
-/

/-- `overflowing_add` at width `w`. -/
def overflowing_add (w a b : Nat) : Nat × Bool := ((a + b) % 2 ^ w, 2 ^ w ≤ a + b)

/-- `overflowing_sub` at width `w`. -/
def overflowing_sub (w a b : Nat) : Nat × Bool :=
  if a < b then ((2 ^ w + a - b) % 2 ^ w, true) else (a - b, false)

/-- `overflowing_mul` at width `w`. -/
def overflowing_mul (w a b : Nat) : Nat × Bool := ((a * b) % 2 ^ w, 2 ^ w ≤ a * b)

/-- `overflowing_div` at width `w` (caller checks the divisor). -/
def overflowing_div (_w a b : Nat) : Nat × Bool := (a / b, false)

/-- `overflowing_shl` at width `w`. -/
def overflowing_shl (w a b : Nat) : Nat × Bool := ((a <<< (b % w)) % 2 ^ w, w ≤ b)

/-- `overflowing_shr` at width `w`. -/
def overflowing_shr (w a b : Nat) : Nat × Bool := (a >>> (b % w), w ≤ b)

/-- The `convert!` macro: `TryInto<u32>` for a shift amount; fails with
`CastNumberError` when the value does not fit in 32 bits. -/
def convert (n : Nat) : Except InterpreterError Nat :=
  if n < 2 ^ 32 then .ok n else .error .CastNumberError

/-!
### Old `Value` accessors (missing `types` module)

Reconstructed from their uses: `as_*` borrow, `to_*` move; both extract
the same payload in this by-value model.
-/

/-- `Value::as_byte`. -/
def as_byte : Value → Except InterpreterError Nat
  | .Byte n => .ok n
  | v => .error (.InvalidValue v .Byte)

/-- `Value::as_short`. -/
def as_short : Value → Except InterpreterError Nat
  | .Short n => .ok n
  | v => .error (.InvalidValue v .Short)

/-- `Value::as_int`. -/
def as_int : Value → Except InterpreterError Nat
  | .Int n => .ok n
  | v => .error (.InvalidValue v .Int)

/-- `Value::as_long`. -/
def as_long : Value → Except InterpreterError Nat
  | .Long n => .ok n
  | v => .error (.InvalidValue v .Long)

/-- `Value::as_bool`. -/
def as_bool : Value → Except InterpreterError Bool
  | .Boolean b => .ok b
  | v => .error (.InvalidValue v .Boolean)

/-- `Value::as_string`. -/
def as_string : Value → Except InterpreterError String
  | .String s => .ok s
  | v => .error (.InvalidValue v .String)

/-- `Value::as_map` (struct fields). -/
def as_map : Value → Except InterpreterError (List (String × Value))
  | .Struct _ fields => .ok fields
  | v => .error (.InvalidStructValue v)

/-- `Value::as_vec`. -/
def as_vec : Value → Except InterpreterError (List Value)
  | .Array vs => .ok vs
  | v => .error (.InvalidValue v (.Array .Any))

/-- `Value::to_byte`. -/
def to_byte (v : Value) : Except InterpreterError Nat := as_byte v

/-- `Value::to_short`. -/
def to_short (v : Value) : Except InterpreterError Nat := as_short v

/-- `Value::to_int`. -/
def to_int (v : Value) : Except InterpreterError Nat := as_int v

/-- `Value::to_long`. -/
def to_long (v : Value) : Except InterpreterError Nat := as_long v

/-- `Value::to_bool`. -/
def to_bool (v : Value) : Except InterpreterError Bool := as_bool v

/-- `Value::to_string_v` (moves the `String` payload out). -/
def to_string_v (v : Value) : Except InterpreterError String := as_string v

/-- `Value::to_vec`. -/
def to_vec (v : Value) : Except InterpreterError (List Value) := as_vec v

/-- `Value::is_number` (old enum). -/
def value_is_number : Value → Bool
  | .Byte _ | .Short _ | .Int _ | .Long _ => true
  | _ => false

mutual

/-- Modelled from the spec: the old `Value`'s `Display`, used by `+` for
string concatenation (the impl is in the missing `types` module). -/
def display : Value → String
  | .Null => "null"
  | .Byte n => toString n
  | .Short n => toString n
  | .Int n => toString n
  | .Long n => toString n
  | .Boolean b => toString b
  | .String s => s
  | .Struct name fields => name ++ " \x7b" ++ display_fields fields ++ "\x7d"
  | .Array vs => "[" ++ display_list vs ++ "]"

/-- Struct fields, comma separated. -/
def display_fields : List (String × Value) → String
  | [] => ""
  | [(k, v)] => k ++ ": " ++ display v
  | (k, v) :: rest => k ++ ": " ++ display v ++ ", " ++ display_fields rest

/-- Array elements, comma separated. -/
def display_list : List Value → String
  | [] => ""
  | [v] => display v
  | v :: rest => display v ++ ", " ++ display_list rest

end

/-- The `RefMap` of structures: the environment's map is linked first,
then the program's. -/
def ref_structures_get (ip : Interpreter) (name : String) : Option Struct :=
  match assocGet ip.env.structures name with
  | some s => some s
  | none => assocGet ip.program.structures name

/-- Modelled from the spec: the old `Type::from_value(value, ref_structures)`
(missing `types` module). `Null` and empty arrays have no type; an array
takes its type from its first element; a struct's name must be registered. -/
def from_value (ip : Interpreter) : Value → Option Ty
  | .Null => none
  | .Byte _ => some .Byte
  | .Short _ => some .Short
  | .Int _ => some .Int
  | .Long _ => some .Long
  | .Boolean _ => some .Boolean
  | .String _ => some .String
  | .Struct name _ => if (ref_structures_get ip name).isSome then some (.Struct name) else none
  | .Array [] => none
  | .Array (v :: _) =>
    match from_value ip v with
    | some t => some (.Array t)
    | none => none

/-- `Interpreter::get_type_from_value`. -/
def get_type_from_value (ip : Interpreter) (v : Value) : Except InterpreterError Ty :=
  match from_value ip v with
  | some t => .ok t
  | none => .error (.TypeNotFound v)

/-- `Interpreter::get_types_from_values`. -/
def get_types_from_values (ip : Interpreter) : List Value → Except InterpreterError (List Ty)
  | [] => .ok []
  | v :: rest => do
    let t ← get_type_from_value ip v
    let ts ← get_types_from_values ip rest
    pure (t :: ts)

/-- Modelled from the spec: the old `Type::is_compatible_with` (missing
`types` module), used only to match a call's receiver type against a
function's `for_type`: arrays componentwise, `Any` unifies, otherwise
equality. -/
def ty_compatible (a b : Ty) : Bool :=
  match a, b with
  | .Array x, .Array y => ty_compatible x y
  | a2, b2 => a2 = b2 || a2 = .Any || b2 = .Any

/-- The per-parameter test of `Interpreter::get_function`: each declared
type must be `Any` or equal to the argument type. -/
def params_match : List Ty → List Ty → Bool
  | [], [] => true
  | ft :: fr, pt :: pr => (ft = .Any || ft = pt) && params_match fr pr
  | _, _ => false

/-- The candidate test of `Interpreter::get_function` (name, arity,
receiver-type match, parameter types). -/
def function_matches (name : String) (ft : Option Ty) (parameters : List Ty)
    (f : FunctionType) : Bool :=
  get_name f = name && get_parameters_count f = parameters.length &&
  (match ft, for_type f with
   | some type_a, some type_b => ty_compatible type_a type_b
   | some _, none => false
   | none, fb => fb = none) &&
  params_match (get_parameters_types f) parameters

/-- `Interpreter::get_function`: first match over the program's functions
chained with the environment's. -/
def get_function (ip : Interpreter) (name : String) (ft : Option Ty)
    (parameters : List Ty) : Except InterpreterError FunctionType :=
  match (ip.program.functions ++ ip.env.functions).find? (function_matches name ft parameters) with
  | some f => .ok f
  | none => .error (.FunctionNotFound name parameters)

/-!
### Paths and in-place writes

`get_from_path` returns `&mut Value` in the source. Here it returns the
current value together with the location it is rooted at — a context
variable plus a chain of struct-field / array-index accesses — and the
assignment arm writes back through that location. A path rooted in a
temporary receiver carries no location; on the assignment path the root
is always a context variable (nested resolutions receive no context).
-/

/-- One descent step of a resolved path. -/
inductive Access where
  | field (name : String)
  | index (i : Nat)
  deriving Repr

/-- A write location: a context variable and a descent chain. -/
structure Lval where
  root : String
  accs : List Access
  deriving Repr

/-- The value handle produced by `get_from_path`. -/
structure PathRef where
  value : Value
  loc : Option Lval
  deriving Repr

/-- Modify the `i`-th element of a list (identity when out of range). -/
def list_modify (l : List α) (i : Nat) (f : α → α) : List α :=
  match l, i with
  | [], _ => []
  | x :: rest, 0 => f x :: rest
  | x :: rest, j+1 => x :: list_modify rest j f

/-- Write `newV` at the end of an access chain inside a value (identity
on a mismatched step, which cannot occur for a just-resolved path). -/
def value_update (accs : List Access) (cur newV : Value) : Value :=
  match accs, cur with
  | [], _ => newV
  | .field f :: rest, .Struct n fields =>
    .Struct n (assocModify fields f (fun v => value_update rest v newV))
  | .index i :: rest, .Array vs =>
    .Array (list_modify vs i (fun v => value_update rest v newV))
  | _ :: _, v => v
termination_by accs.length
decreasing_by all_goals simp [List.length_cons]

/-- Write through a resolved location into the context. -/
def ctx_write (ctx : Context) (lv : Lval) (newV : Value) : Context :=
  { ctx with
    scopes := scopes_modify ctx.scopes lv.root
      (fun va => { va with value := value_update lv.accs va.value newV }) }

/-- The write `*path_value = newV` of the assignment arm. A location-free
path (temporary receiver root) has nowhere durable to write; that case is
unreachable from the assignment arm. -/
def write_pathM (pr : PathRef) (v : Value) : M Unit :=
  match pr.loc with
  | some lv => fun st ctx => (.ok (), st, ctx_write ctx lv v)
  | none => pure ()

/-- `context.get_mut_variable(name)`, lifted to `M`. -/
def get_mut_variableM (name : String) : M Variable := fun st ctx =>
  match ctx_get_variable ctx name with
  | .ok v => (.ok v, st, ctx)
  | .error e => (.err e, st, ctx)

/-- The variable-read fallback of `execute_expression`: a hit returns the
value; a miss falls into the source's unfinished constants lookup, which
is `todo!("")` — a panic. -/
def get_variable_or_panicM (name : String) : M (Option Value) := fun st ctx =>
  match ctx_get_variable ctx name with
  | .ok v => (.ok (some v.value), st, ctx)
  | .error _ => (.rustPanic, st, ctx)

/-- `Context::set_loop_break`, lifted to `M`. -/
def set_loop_breakM (b : Bool) : M Unit := fun st ctx => (.ok (), st, { ctx with loop_break := b })

/-- `Context::set_loop_continue`, lifted to `M`. -/
def set_loop_continueM (b : Bool) : M Unit := fun st ctx => (.ok (), st, { ctx with loop_continue := b })

/-- The `exec!` macro: fail with `OverflowOccured` on overflow, else wrap
the result. -/
def exec_overflow (p : Nat × Bool) (mk : Nat → Value) : M Value :=
  if p.2 then M.throw .OverflowOccured else pure (mk p.1)

/-- Modelled from the spec (§4.A): the old `Value::cast_to_byte`
(truncating; bool becomes 0/1; non-numeric sources fail). -/
def cast_to_byte : Value → Except InterpreterError Nat
  | .Byte n => .ok n
  | .Short n => .ok (Tc.rust_as 8 n)
  | .Int n => .ok (Tc.rust_as 8 n)
  | .Long n => .ok (Tc.rust_as 8 n)
  | .Boolean b => .ok (if b then 1 else 0)
  | _ => .error (.InvalidCastType .Byte)

/-- Modelled from the spec (§4.A): the old `Value::cast_to_short`. -/
def cast_to_short : Value → Except InterpreterError Nat
  | .Byte n => .ok (Tc.rust_as 16 n)
  | .Short n => .ok n
  | .Int n => .ok (Tc.rust_as 16 n)
  | .Long n => .ok (Tc.rust_as 16 n)
  | .Boolean b => .ok (if b then 1 else 0)
  | _ => .error (.InvalidCastType .Short)

/-- Modelled from the spec (§4.A): the old `Value::cast_to_int`. -/
def cast_to_int : Value → Except InterpreterError Nat
  | .Byte n => .ok (Tc.rust_as 64 n)
  | .Short n => .ok (Tc.rust_as 64 n)
  | .Int n => .ok n
  | .Long n => .ok (Tc.rust_as 64 n)
  | .Boolean b => .ok (if b then 1 else 0)
  | _ => .error (.InvalidCastType .Int)

/-- Modelled from the spec (§4.A): the old `Value::cast_to_long`. -/
def cast_to_long : Value → Except InterpreterError Nat
  | .Byte n => .ok (Tc.rust_as 128 n)
  | .Short n => .ok (Tc.rust_as 128 n)
  | .Int n => .ok (Tc.rust_as 128 n)
  | .Long n => .ok n
  | .Boolean b => .ok (if b then 1 else 0)
  | _ => .error (.InvalidCastType .Long)

/-- Modelled from the spec (§4.A): the old `Value::cast_to_string`
(formats numbers and booleans; non-numeric sources fail). -/
def cast_to_string : Value → Except InterpreterError String
  | .Byte n => .ok (toString n)
  | .Short n => .ok (toString n)
  | .Int n => .ok (toString n)
  | .Long n => .ok (toString n)
  | .Boolean b => .ok (toString b)
  | .String s2 => .ok s2
  | _ => .error (.InvalidCastType .String)

mutual

/-- `Interpreter::is_same_value`: deep structural equality directed by a
type (fuelled; struct fields compare through the structure registry). -/
def is_same_value (ip : Interpreter) : Nat → Ty → Value → Value → Res Bool
  | 0, _, _, _ => .outOfFuel
  | _fuel+1, .Any, _, _ => .err (.InvalidType .Any)
  | _fuel+1, .Byte, left, right => do
    let a ← Res.ofExcept (as_byte left)
    let b ← Res.ofExcept (as_byte right)
    pure (a = b)
  | _fuel+1, .Short, left, right => do
    let a ← Res.ofExcept (as_short left)
    let b ← Res.ofExcept (as_short right)
    pure (a = b)
  | _fuel+1, .Int, left, right => do
    let a ← Res.ofExcept (as_int left)
    let b ← Res.ofExcept (as_int right)
    pure (a = b)
  | _fuel+1, .Long, left, right => do
    let a ← Res.ofExcept (as_long left)
    let b ← Res.ofExcept (as_long right)
    pure (a = b)
  | _fuel+1, .Boolean, left, right => do
    let a ← Res.ofExcept (as_bool left)
    let b ← Res.ofExcept (as_bool right)
    pure (a = b)
  | _fuel+1, .String, left, right => do
    let a ← Res.ofExcept (as_string left)
    let b ← Res.ofExcept (as_string right)
    pure (a = b)
  | fuel+1, .Struct sname, left, right => do
    let left_map ← Res.ofExcept (as_map left)
    let right_map ← Res.ofExcept (as_map right)
    if left_map.length = right_map.length then
      struct_fields_equal ip fuel sname left_map right_map
    else pure false
  | fuel+1, .Array sub_type, left, right => do
    let left_vec ← Res.ofExcept (as_vec left)
    let right_vec ← Res.ofExcept (as_vec right)
    if left_vec.length = right_vec.length then
      values_equal ip fuel sub_type left_vec right_vec
    else pure false

/-- The struct-field loop of `is_same_value` (short-circuits on the first
inequality; a field's declared type comes from the registry). -/
def struct_fields_equal (ip : Interpreter) :
    Nat → String → List (String × Value) → List (String × Value) → Res Bool
  | 0, _, _, _ => .outOfFuel
  | _fuel+1, _, [], _ => pure true
  | fuel+1, sname, (k, v) :: rest, right_map => do
    let same ←
      match assocGet right_map k with
      | some r_v => do
        let field_type ←
          match ref_structures_get ip sname with
          | some st =>
            match assocGet st.fields k with
            | some field => Res.ok field
            | none => Res.err (.InvalidStructValue v)
          | none => Res.err (.StructureNotFound sname)
        is_same_value ip fuel field_type v r_v
      | none => pure false
    if same then struct_fields_equal ip fuel sname rest right_map else pure false

/-- The element loop of `is_same_value` on arrays. -/
def values_equal (ip : Interpreter) : Nat → Ty → List Value → List Value → Res Bool
  | 0, _, _, _ => .outOfFuel
  | _fuel+1, _, [], _ => pure true
  | _fuel+1, _, _ :: _, [] => pure true
  | fuel+1, sub_type, l :: lr, r :: rr => do
    let same ← is_same_value ip fuel sub_type l r
    if same then values_equal ip fuel sub_type lr rr else pure false

end

/-- The parameter-binding loop of `execute_function`
(`values.remove(0)` panics when the vector is empty). -/
def bind_params : List (String × Ty) → List Value → M Unit
  | [], _ => pure ()
  | (pname, ptype) :: rest, values =>
    match values with
    | [] => M.panicM
    | v :: vr => do
      register_variableM pname ⟨v, ptype⟩
      bind_params rest vr

/-- Rust `%`: panics on a zero divisor (there is no zero check in the
source's modulo arms, unlike `div!`). -/
def modulo_or_panic (a b : Nat) (mk : Nat → Value) : M Value :=
  if b = 0 then M.panicM else pure (mk (a % b))

/-- The compound-assignment arms of the `Operator` match in
`execute_expression`: compute the new value for the path (the write
itself is done by the caller). Each arm mirrors the source's extraction
order; `div!` checks the divisor first, the modulo arms do not. -/
def assign_op_value (op : Operator) (path_type : Ty) (path_value value : Value) : M Value :=
  match op with
  | .Assign => pure value
  | .AssignPlus =>
    match path_type with
    | .Byte => do
      let a ← M.liftE (as_byte path_value)
      let b ← M.liftE (to_byte value)
      exec_overflow (overflowing_add 8 a b) Value.Byte
    | .Short => do
      let a ← M.liftE (as_short path_value)
      let b ← M.liftE (to_short value)
      exec_overflow (overflowing_add 16 a b) Value.Short
    | .Int => do
      let a ← M.liftE (as_int path_value)
      let b ← M.liftE (to_int value)
      exec_overflow (overflowing_add 64 a b) Value.Int
    | .Long => do
      let a ← M.liftE (as_long path_value)
      let b ← M.liftE (to_long value)
      exec_overflow (overflowing_add 128 a b) Value.Long
    | .String => do
      let a ← M.liftE (as_string path_value)
      let b ← M.liftE (to_string_v value)
      pure (.String (a ++ b))
    | _ => M.throw .OperationNotNumberType
  | .AssignMinus =>
    match path_type with
    | .Byte => do
      let a ← M.liftE (as_byte path_value)
      let b ← M.liftE (to_byte value)
      exec_overflow (overflowing_sub 8 a b) Value.Byte
    | .Short => do
      let a ← M.liftE (as_short path_value)
      let b ← M.liftE (to_short value)
      exec_overflow (overflowing_sub 16 a b) Value.Short
    | .Int => do
      let a ← M.liftE (as_int path_value)
      let b ← M.liftE (to_int value)
      exec_overflow (overflowing_sub 64 a b) Value.Int
    | .Long => do
      let a ← M.liftE (as_long path_value)
      let b ← M.liftE (to_long value)
      exec_overflow (overflowing_sub 128 a b) Value.Long
    | _ => M.throw .OperationNotNumberType
  | .AssignDivide =>
    match path_type with
    | .Byte => do
      let b ← M.liftE (to_byte value)
      if b = 0 then M.throw .DivByZero
      else do
        let a ← M.liftE (as_byte path_value)
        exec_overflow (overflowing_div 8 a b) Value.Byte
    | .Short => do
      let b ← M.liftE (to_short value)
      if b = 0 then M.throw .DivByZero
      else do
        let a ← M.liftE (as_short path_value)
        exec_overflow (overflowing_div 16 a b) Value.Short
    | .Int => do
      let b ← M.liftE (to_int value)
      if b = 0 then M.throw .DivByZero
      else do
        let a ← M.liftE (as_int path_value)
        exec_overflow (overflowing_div 64 a b) Value.Int
    | .Long => do
      let b ← M.liftE (to_long value)
      if b = 0 then M.throw .DivByZero
      else do
        let a ← M.liftE (as_long path_value)
        exec_overflow (overflowing_div 128 a b) Value.Long
    | _ => M.throw .OperationNotNumberType
  | .AssignMultiply =>
    match path_type with
    | .Byte => do
      let a ← M.liftE (as_byte path_value)
      let b ← M.liftE (to_byte value)
      exec_overflow (overflowing_mul 8 a b) Value.Byte
    | .Short => do
      let a ← M.liftE (as_short path_value)
      let b ← M.liftE (to_short value)
      exec_overflow (overflowing_mul 16 a b) Value.Short
    | .Int => do
      let a ← M.liftE (as_int path_value)
      let b ← M.liftE (to_int value)
      exec_overflow (overflowing_mul 64 a b) Value.Int
    | .Long => do
      let a ← M.liftE (as_long path_value)
      let b ← M.liftE (to_long value)
      exec_overflow (overflowing_mul 128 a b) Value.Long
    | _ => M.throw .OperationNotNumberType
  | .AssignModulo =>
    match path_type with
    | .Byte => do
      let a ← M.liftE (as_byte path_value)
      let b ← M.liftE (to_byte value)
      modulo_or_panic a b Value.Byte
    | .Short => do
      let a ← M.liftE (as_short path_value)
      let b ← M.liftE (to_short value)
      modulo_or_panic a b Value.Short
    | .Int => do
      let a ← M.liftE (as_int path_value)
      let b ← M.liftE (to_int value)
      modulo_or_panic a b Value.Int
    | .Long => do
      let a ← M.liftE (as_long path_value)
      let b ← M.liftE (to_long value)
      modulo_or_panic a b Value.Long
    | _ => M.throw .OperationNotNumberType
  | .AssignBitwiseXor =>
    match path_type with
    | .Byte => do
      let a ← M.liftE (as_byte path_value)
      let b ← M.liftE (to_byte value)
      pure (.Byte (a ^^^ b))
    | .Short => do
      let a ← M.liftE (as_short path_value)
      let b ← M.liftE (to_short value)
      pure (.Short (a ^^^ b))
    | .Int => do
      let a ← M.liftE (as_int path_value)
      let b ← M.liftE (to_int value)
      pure (.Int (a ^^^ b))
    | .Long => do
      let a ← M.liftE (as_long path_value)
      let b ← M.liftE (to_long value)
      pure (.Long (a ^^^ b))
    | _ => M.throw .OperationNotNumberType
  | .AssignBitwiseAnd =>
    match path_type with
    | .Byte => do
      let a ← M.liftE (as_byte path_value)
      let b ← M.liftE (to_byte value)
      pure (.Byte (a &&& b))
    | .Short => do
      let a ← M.liftE (as_short path_value)
      let b ← M.liftE (to_short value)
      pure (.Short (a &&& b))
    | .Int => do
      let a ← M.liftE (as_int path_value)
      let b ← M.liftE (to_int value)
      pure (.Int (a &&& b))
    | .Long => do
      let a ← M.liftE (as_long path_value)
      let b ← M.liftE (to_long value)
      pure (.Long (a &&& b))
    | _ => M.throw .OperationNotNumberType
  | .AssignBitwiseOr =>
    match path_type with
    | .Byte => do
      let a ← M.liftE (as_byte path_value)
      let b ← M.liftE (to_byte value)
      pure (.Byte (a ||| b))
    | .Short => do
      let a ← M.liftE (as_short path_value)
      let b ← M.liftE (to_short value)
      pure (.Short (a ||| b))
    | .Int => do
      let a ← M.liftE (as_int path_value)
      let b ← M.liftE (to_int value)
      pure (.Int (a ||| b))
    | .Long => do
      let a ← M.liftE (as_long path_value)
      let b ← M.liftE (to_long value)
      pure (.Long (a ||| b))
    | _ => M.throw .OperationNotNumberType
  | .AssignBitwiseLeft =>
    match path_type with
    | .Byte => do
      let a ← M.liftE (as_byte path_value)
      let b ← M.liftE (to_byte value)
      let c ← M.liftE (convert b)
      exec_overflow (overflowing_shl 8 a c) Value.Byte
    | .Short => do
      let a ← M.liftE (as_short path_value)
      let b ← M.liftE (to_short value)
      let c ← M.liftE (convert b)
      exec_overflow (overflowing_shl 16 a c) Value.Short
    | .Int => do
      let a ← M.liftE (as_int path_value)
      let b ← M.liftE (to_int value)
      let c ← M.liftE (convert b)
      exec_overflow (overflowing_shl 64 a c) Value.Int
    | .Long => do
      let a ← M.liftE (as_long path_value)
      let b ← M.liftE (to_long value)
      let c ← M.liftE (convert b)
      exec_overflow (overflowing_shl 128 a c) Value.Long
    | _ => M.throw .OperationNotNumberType
  | .AssignBitwiseRight =>
    match path_type with
    | .Byte => do
      let a ← M.liftE (as_byte path_value)
      let b ← M.liftE (to_byte value)
      let c ← M.liftE (convert b)
      exec_overflow (overflowing_shr 8 a c) Value.Byte
    | .Short => do
      let a ← M.liftE (as_short path_value)
      let b ← M.liftE (to_short value)
      let c ← M.liftE (convert b)
      exec_overflow (overflowing_shr 16 a c) Value.Short
    | .Int => do
      let a ← M.liftE (as_int path_value)
      let b ← M.liftE (to_int value)
      let c ← M.liftE (convert b)
      exec_overflow (overflowing_shr 64 a c) Value.Int
    | .Long => do
      let a ← M.liftE (as_long path_value)
      let b ← M.liftE (to_long value)
      let c ← M.liftE (convert b)
      exec_overflow (overflowing_shr 128 a c) Value.Long
    | _ => M.throw .OperationNotNumberType
  | _ => M.throw .NotImplemented

/-- The pure binary arms of the `Operator` match in `execute_expression`
(equality, arithmetic, bitwise, shifts, relational), after the
short-circuit family has been handled and the numeric-operand check has
passed. -/
def binary_op_value (ip : Interpreter) (fuel : Nat) (op : Operator)
    (left_type right_type : Ty) (left right : Value) : M (Option Value) :=
  match op with
  | .Equals =>
    if left_type = right_type then do
      let same ← M.liftRes (is_same_value ip fuel left_type left right)
      pure (some (.Boolean same))
    else pure (some (.Boolean false))
  | .NotEquals =>
    if left_type ≠ right_type then pure (some (.Boolean true))
    else do
      let same ← M.liftRes (is_same_value ip fuel left_type left right)
      pure (some (.Boolean !same))
  | .Plus =>
    if left_type = .String || right_type = .String then
      pure (some (.String (display left ++ display right)))
    else
      match left_type with
      | .Byte => do
        let a ← M.liftE (to_byte left)
        let b ← M.liftE (to_byte right)
        let v ← exec_overflow (overflowing_add 8 a b) Value.Byte
        pure (some v)
      | .Short => do
        let a ← M.liftE (to_short left)
        let b ← M.liftE (to_short right)
        let v ← exec_overflow (overflowing_add 16 a b) Value.Short
        pure (some v)
      | .Int => do
        let a ← M.liftE (to_int left)
        let b ← M.liftE (to_int right)
        let v ← exec_overflow (overflowing_add 64 a b) Value.Int
        pure (some v)
      | .Long => do
        let a ← M.liftE (to_long left)
        let b ← M.liftE (to_long right)
        let v ← exec_overflow (overflowing_add 128 a b) Value.Long
        pure (some v)
      | _ => M.throw .OperationNotNumberType
  | .Minus =>
    match left_type with
    | .Byte => do
      let a ← M.liftE (to_byte left)
      let b ← M.liftE (to_byte right)
      let v ← exec_overflow (overflowing_sub 8 a b) Value.Byte
      pure (some v)
    | .Short => do
      let a ← M.liftE (to_short left)
      let b ← M.liftE (to_short right)
      let v ← exec_overflow (overflowing_sub 16 a b) Value.Short
      pure (some v)
    | .Int => do
      let a ← M.liftE (to_int left)
      let b ← M.liftE (to_int right)
      let v ← exec_overflow (overflowing_sub 64 a b) Value.Int
      pure (some v)
    | .Long => do
      let a ← M.liftE (to_long left)
      let b ← M.liftE (to_long right)
      let v ← exec_overflow (overflowing_sub 128 a b) Value.Long
      pure (some v)
    | _ => M.throw .OperationNotNumberType
  | .Divide =>
    match left_type with
    | .Byte => do
      let b ← M.liftE (to_byte right)
      if b = 0 then M.throw .DivByZero
      else do
        let a ← M.liftE (to_byte left)
        let v ← exec_overflow (overflowing_div 8 a b) Value.Byte
        pure (some v)
    | .Short => do
      let b ← M.liftE (to_short right)
      if b = 0 then M.throw .DivByZero
      else do
        let a ← M.liftE (to_short left)
        let v ← exec_overflow (overflowing_div 16 a b) Value.Short
        pure (some v)
    | .Int => do
      let b ← M.liftE (to_int right)
      if b = 0 then M.throw .DivByZero
      else do
        let a ← M.liftE (to_int left)
        let v ← exec_overflow (overflowing_div 64 a b) Value.Int
        pure (some v)
    | .Long => do
      let b ← M.liftE (to_long right)
      if b = 0 then M.throw .DivByZero
      else do
        let a ← M.liftE (to_long left)
        let v ← exec_overflow (overflowing_div 128 a b) Value.Long
        pure (some v)
    | _ => M.throw .OperationNotNumberType
  | .Multiply =>
    match left_type with
    | .Byte => do
      let a ← M.liftE (to_byte left)
      let b ← M.liftE (to_byte right)
      let v ← exec_overflow (overflowing_mul 8 a b) Value.Byte
      pure (some v)
    | .Short => do
      let a ← M.liftE (to_short left)
      let b ← M.liftE (to_short right)
      let v ← exec_overflow (overflowing_mul 16 a b) Value.Short
      pure (some v)
    | .Int => do
      let a ← M.liftE (to_int left)
      let b ← M.liftE (to_int right)
      let v ← exec_overflow (overflowing_mul 64 a b) Value.Int
      pure (some v)
    | .Long => do
      let a ← M.liftE (to_long left)
      let b ← M.liftE (to_long right)
      let v ← exec_overflow (overflowing_mul 128 a b) Value.Long
      pure (some v)
    | _ => M.throw .OperationNotNumberType
  | .Modulo =>
    match left_type with
    | .Byte => do
      let a ← M.liftE (to_byte left)
      let b ← M.liftE (to_byte right)
      let v ← modulo_or_panic a b Value.Byte
      pure (some v)
    | .Short => do
      let a ← M.liftE (to_short left)
      let b ← M.liftE (to_short right)
      let v ← modulo_or_panic a b Value.Short
      pure (some v)
    | .Int => do
      let a ← M.liftE (to_int left)
      let b ← M.liftE (to_int right)
      let v ← modulo_or_panic a b Value.Int
      pure (some v)
    | .Long => do
      let a ← M.liftE (to_long left)
      let b ← M.liftE (to_long right)
      let v ← modulo_or_panic a b Value.Long
      pure (some v)
    | _ => M.throw .OperationNotNumberType
  | .BitwiseXor =>
    match left_type with
    | .Byte => do
      let a ← M.liftE (to_byte left)
      let b ← M.liftE (to_byte right)
      pure (some (.Byte (a ^^^ b)))
    | .Short => do
      let a ← M.liftE (to_short left)
      let b ← M.liftE (to_short right)
      pure (some (.Short (a ^^^ b)))
    | .Int => do
      let a ← M.liftE (to_int left)
      let b ← M.liftE (to_int right)
      pure (some (.Int (a ^^^ b)))
    | .Long => do
      let a ← M.liftE (to_long left)
      let b ← M.liftE (to_long right)
      pure (some (.Long (a ^^^ b)))
    | _ => M.throw .OperationNotNumberType
  | .BitwiseAnd =>
    match left_type with
    | .Byte => do
      let a ← M.liftE (to_byte left)
      let b ← M.liftE (to_byte right)
      pure (some (.Byte (a &&& b)))
    | .Short => do
      let a ← M.liftE (to_short left)
      let b ← M.liftE (to_short right)
      pure (some (.Short (a &&& b)))
    | .Int => do
      let a ← M.liftE (to_int left)
      let b ← M.liftE (to_int right)
      pure (some (.Int (a &&& b)))
    | .Long => do
      let a ← M.liftE (to_long left)
      let b ← M.liftE (to_long right)
      pure (some (.Long (a &&& b)))
    | _ => M.throw .OperationNotNumberType
  | .BitwiseOr =>
    match left_type with
    | .Byte => do
      let a ← M.liftE (to_byte left)
      let b ← M.liftE (to_byte right)
      pure (some (.Byte (a ||| b)))
    | .Short => do
      let a ← M.liftE (to_short left)
      let b ← M.liftE (to_short right)
      pure (some (.Short (a ||| b)))
    | .Int => do
      let a ← M.liftE (to_int left)
      let b ← M.liftE (to_int right)
      pure (some (.Int (a ||| b)))
    | .Long => do
      let a ← M.liftE (to_long left)
      let b ← M.liftE (to_long right)
      pure (some (.Long (a ||| b)))
    | _ => M.throw .OperationNotNumberType
  | .BitwiseLeft =>
    match left_type with
    | .Byte => do
      let a ← M.liftE (to_byte left)
      let b ← M.liftE (to_byte right)
      let c ← M.liftE (convert b)
      let v ← exec_overflow (overflowing_shl 8 a c) Value.Byte
      pure (some v)
    | .Short => do
      let a ← M.liftE (to_short left)
      let b ← M.liftE (to_short right)
      let c ← M.liftE (convert b)
      let v ← exec_overflow (overflowing_shl 16 a c) Value.Short
      pure (some v)
    | .Int => do
      let a ← M.liftE (to_int left)
      let b ← M.liftE (to_int right)
      let c ← M.liftE (convert b)
      let v ← exec_overflow (overflowing_shl 64 a c) Value.Int
      pure (some v)
    | .Long => do
      let a ← M.liftE (to_long left)
      let b ← M.liftE (to_long right)
      let c ← M.liftE (convert b)
      let v ← exec_overflow (overflowing_shl 128 a c) Value.Long
      pure (some v)
    | _ => M.throw .OperationNotNumberType
  | .BitwiseRight =>
    match left_type with
    | .Byte => do
      let a ← M.liftE (to_byte left)
      let b ← M.liftE (to_byte right)
      let c ← M.liftE (convert b)
      let v ← exec_overflow (overflowing_shr 8 a c) Value.Byte
      pure (some v)
    | .Short => do
      let a ← M.liftE (to_short left)
      let b ← M.liftE (to_short right)
      let c ← M.liftE (convert b)
      let v ← exec_overflow (overflowing_shr 16 a c) Value.Short
      pure (some v)
    | .Int => do
      let a ← M.liftE (to_int left)
      let b ← M.liftE (to_int right)
      let c ← M.liftE (convert b)
      let v ← exec_overflow (overflowing_shr 64 a c) Value.Int
      pure (some v)
    | .Long => do
      let a ← M.liftE (to_long left)
      let b ← M.liftE (to_long right)
      let c ← M.liftE (convert b)
      let v ← exec_overflow (overflowing_shr 128 a c) Value.Long
      pure (some v)
    | _ => M.throw .OperationNotNumberType
  | .GreaterOrEqual =>
    match left_type with
    | .Byte => do
      let a ← M.liftE (to_byte left)
      let b ← M.liftE (to_byte right)
      pure (some (.Boolean (b ≤ a)))
    | .Short => do
      let a ← M.liftE (to_short left)
      let b ← M.liftE (to_short right)
      pure (some (.Boolean (b ≤ a)))
    | .Int => do
      let a ← M.liftE (to_int left)
      let b ← M.liftE (to_int right)
      pure (some (.Boolean (b ≤ a)))
    | .Long => do
      let a ← M.liftE (to_long left)
      let b ← M.liftE (to_long right)
      pure (some (.Boolean (b ≤ a)))
    | _ => M.throw .OperationNotNumberType
  | .GreaterThan =>
    match left_type with
    | .Byte => do
      let a ← M.liftE (to_byte left)
      let b ← M.liftE (to_byte right)
      pure (some (.Boolean (b < a)))
    | .Short => do
      let a ← M.liftE (to_short left)
      let b ← M.liftE (to_short right)
      pure (some (.Boolean (b < a)))
    | .Int => do
      let a ← M.liftE (to_int left)
      let b ← M.liftE (to_int right)
      pure (some (.Boolean (b < a)))
    | .Long => do
      let a ← M.liftE (to_long left)
      let b ← M.liftE (to_long right)
      pure (some (.Boolean (b < a)))
    | _ => M.throw .OperationNotNumberType
  | .LessOrEqual =>
    match left_type with
    | .Byte => do
      let a ← M.liftE (to_byte left)
      let b ← M.liftE (to_byte right)
      pure (some (.Boolean (a ≤ b)))
    | .Short => do
      let a ← M.liftE (to_short left)
      let b ← M.liftE (to_short right)
      pure (some (.Boolean (a ≤ b)))
    | .Int => do
      let a ← M.liftE (to_int left)
      let b ← M.liftE (to_int right)
      pure (some (.Boolean (a ≤ b)))
    | .Long => do
      let a ← M.liftE (to_long left)
      let b ← M.liftE (to_long right)
      pure (some (.Boolean (a ≤ b)))
    | _ => M.throw .OperationNotNumberType
  | .LessThan =>
    match left_type with
    | .Byte => do
      let a ← M.liftE (to_byte left)
      let b ← M.liftE (to_byte right)
      pure (some (.Boolean (a < b)))
    | .Short => do
      let a ← M.liftE (to_short left)
      let b ← M.liftE (to_short right)
      pure (some (.Boolean (a < b)))
    | .Int => do
      let a ← M.liftE (to_int left)
      let b ← M.liftE (to_int right)
      pure (some (.Boolean (a < b)))
    | .Long => do
      let a ← M.liftE (to_long left)
      let b ← M.liftE (to_long right)
      pure (some (.Boolean (a < b)))
    | _ => M.throw .OperationNotNumberType
  | _ => M.throw .UnexpectedOperator

mutual

/-- `Interpreter::execute_expression`: bump the expression meter, then
dispatch on the node. `on_value` is the optional receiver (read-only in
this model; see `write_pathM`), `hasCtx` models whether the optional
`&mut Context` was passed (`Some`/`None`); the unique context itself is
threaded in the monad. -/
def execute_expression (ip : Interpreter) :
    Nat → Option Value → Bool → Expression → M (Option Value)
  | 0, _, _, _ => M.noFuel
  | fuel+1, on_value, hasCtx, expr => do
    increment_expr ip
    execute_expression_inner ip fuel on_value hasCtx expr

/-- The body of `execute_expression` after the meter bump: the dispatch
over expression nodes. -/
def execute_expression_inner (ip : Interpreter) :
    Nat → Option Value → Bool → Expression → M (Option Value)
  | 0, _, _, _ => M.noFuel
  | fuel+1, on_value, hasCtx, expr =>
    match expr with
    | .FunctionCall name parameters => do
      let values ← eval_each ip fuel hasCtx parameters
      let st ← M.getSt
      M.setSt { st with recursive := st.recursive + 1 }
      if ip.max_recursive ≤ st.recursive + 1 then M.throw .RecursiveLimitReached
      else do
        let res ← call_resolved ip fuel on_value name values
        let st2 ← M.getSt
        M.setSt { st2 with recursive := st2.recursive - 1 }
        M.liftRes res
    | .ArrayConstructor expressions => do
      let values ← eval_each ip fuel hasCtx expressions
      pure (some (.Array values))
    | .StructConstructor struct_name expr_fields =>
      match ref_structures_get ip struct_name with
      | none => M.throw (.StructureNotFound struct_name)
      | some s => do
        let fields ← eval_struct_fields ip fuel hasCtx struct_name s expr_fields []
        pure (some (.Struct struct_name fields))
    | .ArrayCall e e_index => do
      let av ← execute_expression_and_expect_value ip fuel on_value hasCtx e
      let values ← M.liftE (to_vec av)
      let iv ← execute_expression_and_expect_value ip fuel none hasCtx e_index
      let index ← M.liftE (to_int iv)
      match values.get? index with
      | some v => pure (some v)
      | none => M.throw (.OutOfBounds values.length index)
    | .IsNot e => do
      let v ← execute_expression_and_expect_value ip fuel none hasCtx e
      let b ← M.liftE (to_bool v)
      pure (some (.Boolean (!b)))
    | .SubExpression e => execute_expression ip fuel none hasCtx e
    | .Ternary condition left right => do
      let c ← execute_expression_and_expect_value ip fuel none hasCtx condition
      let cb ← M.liftE (to_bool c)
      if cb then do
        let v ← execute_expression_and_expect_value ip fuel none hasCtx left
        pure (some v)
      else do
        let v ← execute_expression_and_expect_value ip fuel none hasCtx right
        pure (some v)
    | .Value v => pure (some v)
    | .Variable var =>
      match on_value with
      | some inst => do
        let fields ← M.liftE (as_map inst)
        match assocGet fields var with
        | some value => pure (some value)
        | none => M.throw (.VariableNotFound var)
      | none =>
        if hasCtx then get_variable_or_panicM var
        else M.throw .ExpectedPath
    | .Operator op expr_left expr_right =>
      if is_assignation op then do
        let value ← execute_expression_and_expect_value ip fuel none hasCtx expr_right
        let path_ref ← get_from_path ip fuel none hasCtx expr_left
        let path_type ← M.liftE (get_type_from_value ip path_ref.value)
        let value_type ← M.liftE (get_type_from_value ip value)
        if (!(value_is_number path_ref.value) || !(value_is_number value) ||
            path_type ≠ value_type)
            && is_number_operator op
            && !(op = .AssignPlus && path_type = .String) then
          M.throw .OperationNotNumberType
        else do
          let newV ← assign_op_value op path_type path_ref.value value
          write_pathM path_ref newV
          pure none
      else do
        let left ← execute_expression_and_expect_value ip fuel none hasCtx expr_left
        let left_type ← M.liftE (get_type_from_value ip left)
        if is_and_or_or op then
          match op with
          | .And => do
            let lb ← M.liftE (to_bool left)
            if !lb then pure (some (.Boolean false))
            else do
              let right ← execute_expression_and_expect_value ip fuel none hasCtx expr_right
              let rb ← M.liftE (to_bool right)
              pure (some (.Boolean rb))
          | .Or => do
            let lb ← M.liftE (to_bool left)
            if !lb then do
              let right ← execute_expression_and_expect_value ip fuel none hasCtx expr_right
              let rb ← M.liftE (to_bool right)
              pure (some (.Boolean rb))
            else pure (some (.Boolean true))
          | _ => M.throw .UnexpectedOperator
        else do
          let right ← execute_expression_and_expect_value ip fuel none hasCtx expr_right
          let right_type ← M.liftE (get_type_from_value ip right)
          if (!(value_is_number left) || !(value_is_number right) ||
              right_type ≠ left_type) && is_number_operator op then
            M.throw .OperationNotNumberType
          else binary_op_value ip fuel op left_type right_type left right
    | .Path left right => do
      let pr ← get_from_path ip fuel (on_value.map (fun v => PathRef.mk v none)) hasCtx left
      execute_expression ip fuel (some pr.value) false right
    | .Cast e cast_type => do
      let value ← execute_expression_and_expect_value ip fuel on_value hasCtx e
      match cast_type with
      | .Byte => do
        let n ← M.liftE (cast_to_byte value)
        pure (some (.Byte n))
      | .Short => do
        let n ← M.liftE (cast_to_short value)
        pure (some (.Short n))
      | .Int => do
        let n ← M.liftE (cast_to_int value)
        pure (some (.Int n))
      | .Long => do
        let n ← M.liftE (cast_to_long value)
        pure (some (.Long n))
      | .String => do
        let s2 ← M.liftE (cast_to_string value)
        pure (some (.String s2))
      | _ => M.throw (.InvalidType cast_type)

/-- The resolution-and-invoke step of the `FunctionCall` arm: the `?` on
`get_type_from_value`, `get_types_from_values` and `get_function`
propagates a resolution error directly — skipping the caller's decrement
— while only `execute_function`'s outcome is captured into `res`. -/
def call_resolved (ip : Interpreter) :
    Nat → Option Value → String → List Value → M (Res (Option Value))
  | 0, _, _, _ => M.noFuel
  | fuel+1, on_value, name, values =>
    match on_value with
    | some v => do
      let vt ← M.liftE (get_type_from_value ip v)
      let types ← M.liftE (get_types_from_values ip values)
      let func ← M.liftE (get_function ip name (some vt) types)
      M.tryM (execute_function ip fuel func (some v) values)
    | none => do
      let types ← M.liftE (get_types_from_values ip values)
      let func ← M.liftE (get_function ip name none types)
      M.tryM (execute_function ip fuel func none values)

/-- `Interpreter::execute_expression_and_expect_value`. -/
def execute_expression_and_expect_value (ip : Interpreter) :
    Nat → Option Value → Bool → Expression → M Value
  | 0, _, _, _ => M.noFuel
  | fuel+1, on_value, hasCtx, expr => do
    let r ← execute_expression ip fuel on_value hasCtx expr
    match r with
    | some v => pure v
    | none => M.throw .ExpectedValue

/-- Left-to-right evaluation of an expression list (the argument loop of
`FunctionCall` and the element loop of `ArrayConstructor`). -/
def eval_each (ip : Interpreter) : Nat → Bool → List Expression → M (List Value)
  | 0, _, _ => M.noFuel
  | _+1, _, [] => pure []
  | fuel+1, hasCtx, e :: rest => do
    let v ← execute_expression_and_expect_value ip fuel none hasCtx e
    let vs ← eval_each ip fuel hasCtx rest
    pure (v :: vs)

/-- The field loop of `StructConstructor`: evaluate each field, check it
exists and that its runtime type equals the declared type. -/
def eval_struct_fields (ip : Interpreter) :
    Nat → Bool → String → Struct → List (String × Expression) →
    List (String × Value) → M (List (String × Value))
  | 0, _, _, _, _, _ => M.noFuel
  | _+1, _, _, _, [], acc => pure acc
  | fuel+1, hasCtx, struct_name, s, (name, e) :: rest, acc => do
    let value ← execute_expression_and_expect_value ip fuel none hasCtx e
    let value_type ← M.liftE (get_type_from_value ip value)
    match assocGet s.fields name with
    | none => M.throw (.StructureFieldNotFound struct_name name)
    | some expected_type =>
      if expected_type ≠ value_type then M.throw (.InvalidType value_type)
      else eval_struct_fields ip fuel hasCtx struct_name s rest (assocSet acc name value)

/-- `Interpreter::get_from_path`: resolve an lvalue. The nested resolution
of an `ArrayCall` base and of a `Path` right-hand side receives no
context (`None` in the source), so only a leading `Variable` chain can
root in the context. -/
def get_from_path (ip : Interpreter) :
    Nat → Option PathRef → Bool → Expression → M PathRef
  | 0, _, _, _ => M.noFuel
  | fuel+1, ref_value, hasCtx, path =>
    match path with
    | .ArrayCall e e_index => do
      let iv ← execute_expression_and_expect_value ip fuel none hasCtx e_index
      let index ← M.liftE (to_int iv)
      let arr ← get_from_path ip fuel ref_value false e
      let values ← M.liftE (as_vec arr.value)
      match values.get? index with
      | some v => pure ⟨v, arr.loc.map (fun l => ⟨l.root, l.accs ++ [.index index]⟩)⟩
      | none => M.throw (.OutOfBounds values.length index)
    | .Path left right => do
      let left_value ← get_from_path ip fuel ref_value hasCtx left
      get_from_path ip fuel (some left_value) false right
    | .Variable name =>
      match ref_value with
      | some r => do
        let fields ← M.liftE (as_map r.value)
        match assocGet fields name with
        | some value => pure ⟨value, r.loc.map (fun l => ⟨l.root, l.accs ++ [.field name]⟩)⟩
        | none => M.throw (.VariableNotFound name)
      | none =>
        if hasCtx then do
          let va ← get_mut_variableM name
          pure ⟨va.value, some ⟨name, []⟩⟩
        else M.throw .ExpectedPath
    | _ => M.throw .ExpectedPath

/-- `Interpreter::execute_statements`: the statement loop, carrying the
`accept_else` latch; per iteration it bumps the meter, breaks out when a
loop flag is set, dispatches, and then clears the latch unless the
statement was an `If`/`ElseIf`. -/
def execute_statements (ip : Interpreter) :
    Nat → List Statement → Bool → M (Option Value)
  | 0, _, _ => M.noFuel
  | _+1, [], _ => pure none
  | fuel+1, statement :: rest, accept_else => do
    increment_expr ip
    execute_statements_inner ip fuel statement rest accept_else

/-- The body of the statement loop after the meter bump: the loop-flag
check and the dispatch over the statement node, carrying the
`accept_else` latch. -/
def execute_statements_inner (ip : Interpreter) :
    Nat → Statement → List Statement → Bool → M (Option Value)
  | 0, _, _, _ => M.noFuel
  | fuel+1, statement, rest, accept_else => do
    let ctx ← M.getCtx
    if ctx.loop_break || ctx.loop_continue then pure none
    else
      match statement with
      | .Break => do
        set_loop_breakM true
        execute_statements ip fuel rest false
      | .Continue => do
        set_loop_continueM true
        execute_statements ip fuel rest false
      | .Variable var => do
        let value ← execute_expression_and_expect_value ip fuel none true var.value
        register_variableM var.name ⟨value, var.value_type⟩
        execute_statements ip fuel rest false
      | .If condition body => do
        let c ← execute_expression_and_expect_value ip fuel none true condition
        let cb ← M.liftE (to_bool c)
        if cb then do
          begin_scope
          let r ← execute_statements ip fuel body false
          match r with
          | some v => do
            end_scope
            pure (some v)
          | none => do
            end_scope
            execute_statements ip fuel rest accept_else
        else execute_statements ip fuel rest true
      | .ElseIf condition body =>
        if accept_else then do
          let c ← execute_expression_and_expect_value ip fuel none true condition
          let cb ← M.liftE (to_bool c)
          if cb then do
            begin_scope
            let r ← execute_statements ip fuel body false
            match r with
            | some v => do
              end_scope
              pure (some v)
            | none => do
              end_scope
              execute_statements ip fuel rest accept_else
          else execute_statements ip fuel rest true
        else execute_statements ip fuel rest accept_else
      | .Else body =>
        if accept_else then do
          begin_scope
          let r ← execute_statements ip fuel body false
          match r with
          | some v => do
            end_scope
            pure (some v)
          | none => do
            end_scope
            execute_statements ip fuel rest false
        else execute_statements ip fuel rest false
      | .For var condition increment body => do
        begin_scope
        let value ← execute_expression_and_expect_value ip fuel none true var.value
        register_variableM var.name ⟨value, var.value_type⟩
        let r ← for_loop ip fuel condition increment body
        match r with
        | some v => do
          end_scope
          pure (some v)
        | none => do
          end_scope
          execute_statements ip fuel rest false
      | .ForEach var expr body => do
        let vv ← execute_expression_and_expect_value ip fuel none true expr
        let values ← M.liftE (to_vec vv)
        match values with
        | [] => execute_statements ip fuel rest false
        | first :: _ => do
          begin_scope
          let value_type ← M.liftE (get_type_from_value ip first)
          register_variableM var ⟨.Null, value_type⟩
          let r ← foreach_loop ip fuel var values body
          match r with
          | some v => do
            end_scope
            pure (some v)
          | none => do
            end_scope
            execute_statements ip fuel rest false
      | .While condition body => do
        begin_scope
        let r ← while_loop ip fuel condition body
        match r with
        | some v => do
          end_scope
          pure (some v)
        | none => do
          end_scope
          execute_statements ip fuel rest false
      | .Return opt =>
        match opt with
        | some v => do
          let value ← execute_expression_and_expect_value ip fuel none true v
          pure (some value)
        | none => pure none
      | .Scope body => do
        begin_scope
        let r ← execute_statements ip fuel body false
        match r with
        | some v => do
          end_scope
          pure (some v)
        | none => do
          end_scope
          execute_statements ip fuel rest false
      | .Expression e => do
        let _ ← execute_expression ip fuel none true e
        execute_statements ip fuel rest false

/-- The `loop` of the `While` statement (condition, body, break/continue
flags). -/
def while_loop (ip : Interpreter) : Nat → Expression → List Statement → M (Option Value)
  | 0, _, _ => M.noFuel
  | fuel+1, condition, body => do
    let c ← execute_expression_and_expect_value ip fuel none true condition
    let cb ← M.liftE (to_bool c)
    if !cb then pure none
    else do
      let r ← execute_statements ip fuel body false
      match r with
      | some v => pure (some v)
      | none => do
        let ctx ← M.getCtx
        if ctx.loop_break then do
          set_loop_breakM false
          pure none
        else do
          if ctx.loop_continue then set_loop_continueM false else pure ()
          while_loop ip fuel condition body

/-- The `loop` of the `For` statement: condition, then the step (which
must not return a value), then the body, then the flags. -/
def for_loop (ip : Interpreter) :
    Nat → Expression → Expression → List Statement → M (Option Value)
  | 0, _, _, _ => M.noFuel
  | fuel+1, condition, increment, body => do
    let c ← execute_expression_and_expect_value ip fuel none true condition
    let cb ← M.liftE (to_bool c)
    if !cb then pure none
    else do
      let rinc ← execute_expression ip fuel none true increment
      if rinc.isSome then M.throw .ExpectedAssignOperator
      else do
        let r ← execute_statements ip fuel body false
        match r with
        | some v => pure (some v)
        | none => do
          let ctx ← M.getCtx
          if ctx.loop_break then do
            set_loop_breakM false
            pure none
          else do
            if ctx.loop_continue then set_loop_continueM false else pure ()
            for_loop ip fuel condition increment body

/-- The `for val in values` loop of the `ForEach` statement. -/
def foreach_loop (ip : Interpreter) :
    Nat → String → List Value → List Statement → M (Option Value)
  | 0, _, _, _ => M.noFuel
  | _+1, _, [], _ => pure none
  | fuel+1, var, val :: restv, body => do
    set_variable_valueM var val
    let r ← execute_statements ip fuel body false
    match r with
    | some v => pure (some v)
    | none => do
      let ctx ← M.getCtx
      if ctx.loop_break then do
        set_loop_breakM false
        pure none
      else do
        if ctx.loop_continue then set_loop_continueM false else pure ()
        foreach_loop ip fuel var restv body

/-- `Interpreter::execute_function`: a native call (pure model) or a user
function run in a fresh context — bind the instance and the parameters,
run the body, pop the scope even when the body erred (but not past a
panic), and return the captured result. -/
def execute_function (ip : Interpreter) :
    Nat → FunctionType → Option Value → List Value → M (Option Value)
  | 0, _, _, _ => M.noFuel
  | fuel+1, func, type_instance, values =>
    if (for_type func).isSome != type_instance.isSome then M.throw .UnexpectedInstanceType
    else
      match func with
      | .Native f => M.liftE (f.on_call type_instance values)
      | .Custom f =>
        M.withNewCtx (do
          begin_scope
          (match f.instance_name with
           | some iname =>
             match type_instance with
             | some inst => do
               let value_type ←
                 match for_type (.Custom f) with
                 | some t => pure t
                 | none => M.throw .ExpectedInstanceType
               register_variableM iname ⟨inst, value_type⟩
             | none => M.throw .UnexpectedInstanceType
           | none => pure ())
          bind_params f.parameters values
          let result ← M.tryM (execute_statements ip fuel f.statements false)
          end_scope
          M.liftRes result)

end

/-- `Interpreter::call_entry_function`: resolve by argument types,
require the entry flag, invoke, and demand a `u64` exit value. -/
def call_entry_function (ip : Interpreter) (fuel : Nat) (function_name : String)
    (parameters : List Value) : M Nat := do
  let types ← M.liftE (get_types_from_values ip parameters)
  let func ← M.liftE (get_function ip function_name none types)
  if !(is_entry func) then M.throw (.FunctionEntry true false)
  else do
    let r ← execute_function ip fuel func none parameters
    match r with
    | some val => M.liftE (to_int val)
    | none => M.throw .NoExitCode

/-- The constant-registration loop of `Interpreter::new`. -/
def register_constants_loop (ip : Interpreter) (fuel : Nat) :
    List DeclarationStatement → M Unit
  | [] => pure ()
  | c :: rest => do
    let value ← execute_expression_and_expect_value ip fuel none true c.value
    register_variableM c.name ⟨value, c.value_type⟩
    register_constants_loop ip fuel rest

/-- `Interpreter::new`'s constant registration: when constants exist,
evaluate them into a fresh context's root scope. -/
def interpreter_new_constants (ip : Interpreter) (fuel : Nat) : M Unit :=
  if ip.program.constants.isEmpty then pure ()
  else
    M.withNewCtx (do
      begin_scope
      register_constants_loop ip fuel ip.program.constants)

/-- A minimal interpreter configuration (empty program and environment)
with the given meters, used by the concrete runs below. -/
def mkIp (me mr : Nat) : Interpreter :=
  { program := { structures := [], constants := [], functions := [] }
    max_expr := me
    max_recursive := mr
    env := { functions := [], structures := [] } }

/-!
### Invariant predicates

The meter and scope claims are settled through one run invariant, proved
for every function of the evaluator by induction on the fuel.
-/

/-- An outcome that is neither of the two meter errors (everything the
evaluator produces except `increment_expr` and the recursion guard). -/
def ResOk (r : Res α) : Prop :=
  r ≠ Res.err .LimitReached ∧ r ≠ Res.err .RecursiveLimitReached

/-- A `Result` that is neither of the two meter errors. -/
def ExceptOk (x : Except InterpreterError α) : Prop := ResOk (Res.ofExcept x)

/-- A host callback (out of the spec's scope) is assumed not to forge the
interpreter's own meter errors. -/
def NativeOkF : FunctionType → Prop
  | .Native nf => ∀ inst vs, ExceptOk (nf.on_call inst vs)
  | .Custom _ => True

/-- All registered functions have well-behaved callbacks. -/
def NativesOk (ip : Interpreter) : Prop :=
  ∀ f ∈ ip.program.functions ++ ip.env.functions, NativeOkF f

/-- The run invariant relating a pre-state/context to an outcome:
the expression counter never decreases; `LimitReached` implies the limit
is enabled and the final count reached it; a successful run leaves the
recursion depth unchanged, `RecursiveLimitReached` leaves it exactly one
higher, and any non-panic outcome moves it by at most one; the scope
depth never shrinks and is restored on success. -/
structure Inv (ip : Interpreter) (st : EState) (ctx : Context)
    (out : Res α × EState × Context) : Prop where
  count_mono : st.count_expr ≤ out.2.1.count_expr
  limit : out.1 = Res.err .LimitReached →
    ip.max_expr ≠ 0 ∧ ip.max_expr ≤ out.2.1.count_expr
  rec_ok : (∃ a, out.1 = Res.ok a) → out.2.1.recursive = st.recursive
  rec_rlr : out.1 = Res.err .RecursiveLimitReached →
    out.2.1.recursive = st.recursive + 1
  rec_bound : out.1 ≠ Res.rustPanic →
    st.recursive ≤ out.2.1.recursive ∧ out.2.1.recursive ≤ st.recursive + 1
  scopes_mono : ctx.scopes.length ≤ out.2.2.scopes.length
  scopes_ok : (∃ a, out.1 = Res.ok a) → out.2.2.scopes.length = ctx.scopes.length

/-- The invariant holds for a computation from every pre-state. -/
def InvOn (ip : Interpreter) (m : M α) : Prop := ∀ st ctx, Inv ip st ctx (m st ctx)

/-- A computation that touches neither the state nor the context and
cannot produce a meter error (it may panic). -/
def Inert (m : M α) : Prop :=
  ∀ st ctx, ResOk (m st ctx).1 ∧ (m st ctx).2.1 = st ∧ (m st ctx).2.2 = ctx

/-- The state-only part of the run invariant; used inside
`execute_function`, whose fresh context makes the scope clauses moot. -/
structure StInv (ip : Interpreter) (st : EState)
    (out : Res α × EState × Context) : Prop where
  count_mono : st.count_expr ≤ out.2.1.count_expr
  limit : out.1 = Res.err .LimitReached →
    ip.max_expr ≠ 0 ∧ ip.max_expr ≤ out.2.1.count_expr
  rec_ok : (∃ a, out.1 = Res.ok a) → out.2.1.recursive = st.recursive
  rec_rlr : out.1 = Res.err .RecursiveLimitReached →
    out.2.1.recursive = st.recursive + 1
  rec_bound : out.1 ≠ Res.rustPanic →
    st.recursive ≤ out.2.1.recursive ∧ out.2.1.recursive ≤ st.recursive + 1

/-- The state-only invariant holds from every pre-state. -/
def StInvOn (ip : Interpreter) (m : M α) : Prop := ∀ st ctx, StInv ip st (m st ctx)

/-- The invariant of `call_resolved`'s runs, which produce a captured
`Res` value: a resolution error leaves state and context untouched and is
never a meter error; a captured outcome carries the invoked function's
meter facts (depth restored on a captured value, `+1` on a captured
`RecursiveLimitReached`, bounded by one either way); running out of fuel
touches nothing. -/
structure CRInvOut (ip : Interpreter) (st : EState) (ctx : Context)
    (out : Res (Res (Option Value)) × EState × Context) : Prop where
  count_mono : st.count_expr ≤ out.2.1.count_expr
  scopes_mono : ctx.scopes.length ≤ out.2.2.scopes.length
  cap_ok : ∀ res, out.1 = Res.ok res → (∃ a, res = Res.ok a) →
    out.2.1.recursive = st.recursive ∧ out.2.2.scopes.length = ctx.scopes.length
  cap_limit : ∀ res, out.1 = Res.ok res → res = Res.err .LimitReached →
    ip.max_expr ≠ 0 ∧ ip.max_expr ≤ out.2.1.count_expr
  cap_rlr : ∀ res, out.1 = Res.ok res → res = Res.err .RecursiveLimitReached →
    out.2.1.recursive = st.recursive + 1
  cap_bound : ∀ res, out.1 = Res.ok res →
    st.recursive ≤ out.2.1.recursive ∧ out.2.1.recursive ≤ st.recursive + 1
  res_err : ∀ e, out.1 = Res.err e → out.2.1 = st ∧ out.2.2 = ctx ∧
    e ≠ .LimitReached ∧ e ≠ .RecursiveLimitReached
  res_fuel : out.1 = Res.outOfFuel → out.2.1 = st ∧ out.2.2 = ctx

/-- The captured-result invariant holds from every pre-state. -/
def CRInvOn (ip : Interpreter) (m : M (Res (Option Value))) : Prop :=
  ∀ st ctx, CRInvOut ip st ctx (m st ctx)

end Interp

namespace Interp

theorem M_bind_def (m : M α) (f : α → M β) : (m >>= f) = M.bind m f := rfl

theorem M_pure_def (a : α) : (pure a : M α) = M.pure a := rfl

theorem invOn_of_inert {m : M α} (h : Inert m) (ip : Interpreter) : InvOn ip m := by
  intro st ctx
  obtain ⟨⟨hne1, hne2⟩, hst, hctx⟩ := h st ctx
  exact {
    count_mono := by rw [hst]
    limit := fun hr => absurd hr hne1
    rec_ok := fun _ => by rw [hst]
    rec_rlr := fun hr => absurd hr hne2
    rec_bound := fun _ => by rw [hst]; omega
    scopes_mono := by rw [hctx]
    scopes_ok := fun _ => by rw [hctx] }

theorem inert_pure (a : α) : Inert (pure a : M α) := by
  intro st ctx
  exact ⟨⟨by simp [M.pure, Pure.pure], by simp [M.pure, Pure.pure]⟩, rfl, rfl⟩

theorem inert_bind {m : M α} {f : α → M β} (hm : Inert m) (hf : ∀ a, Inert (f a)) :
    Inert (m >>= f) := by
  intro st ctx
  rw [M_bind_def]
  unfold M.bind
  obtain ⟨hok, hst, hctx⟩ := hm st ctx
  rcases hr : (m st ctx) with ⟨r, st1, ctx1⟩
  rw [hr] at hok hst hctx
  simp only at hok hst hctx
  cases r with
  | ok a =>
    obtain ⟨k1, k2, k3⟩ := hf a st1 ctx1
    exact ⟨k1, by rw [k2, hst], by rw [k3, hctx]⟩
  | err e =>
    refine ⟨⟨fun hc => hok.1 ?_, fun hc => hok.2 ?_⟩, hst, hctx⟩
    · injection hc with h
      rw [h]
    · injection hc with h
      rw [h]
  | rustPanic => exact ⟨⟨by simp, by simp⟩, hst, hctx⟩
  | outOfFuel => exact ⟨⟨by simp, by simp⟩, hst, hctx⟩

theorem inert_throw {e : InterpreterError} (h1 : e ≠ .LimitReached)
    (h2 : e ≠ .RecursiveLimitReached) : Inert (M.throw e : M α) := by
  intro st ctx
  refine ⟨⟨fun hc => h1 ?_, fun hc => h2 ?_⟩, rfl, rfl⟩
  · injection hc
  · injection hc

theorem inert_panicM : Inert (M.panicM : M α) := by
  intro st ctx
  exact ⟨⟨by simp [M.panicM], by simp [M.panicM]⟩, rfl, rfl⟩

theorem inert_noFuel : Inert (M.noFuel : M α) := by
  intro st ctx
  exact ⟨⟨by simp [M.noFuel], by simp [M.noFuel]⟩, rfl, rfl⟩

theorem inert_liftE {x : Except InterpreterError α} (h : ExceptOk x) : Inert (M.liftE x) := by
  intro st ctx
  exact ⟨h, rfl, rfl⟩

theorem inert_liftRes {r : Res α} (h : ResOk r) : Inert (M.liftRes r) := by
  intro st ctx
  exact ⟨h, rfl, rfl⟩

theorem inert_exec_overflow (p : Nat × Bool) (mk : Nat → Value) :
    Inert (exec_overflow p mk) := by
  unfold exec_overflow
  split
  · exact inert_throw (by simp) (by simp)
  · exact inert_pure _

theorem inert_modulo_or_panic (a b : Nat) (mk : Nat → Value) :
    Inert (modulo_or_panic a b mk) := by
  unfold modulo_or_panic
  split
  · exact inert_panicM
  · exact inert_pure _

theorem inert_get_mut_variableM (name : String) : Inert (get_mut_variableM name) := by
  intro st ctx
  unfold get_mut_variableM ctx_get_variable
  cases scopes_get ctx.scopes name <;> exact ⟨⟨by simp, by simp⟩, rfl, rfl⟩

theorem inert_get_variable_or_panicM (name : String) :
    Inert (get_variable_or_panicM name) := by
  intro st ctx
  unfold get_variable_or_panicM ctx_get_variable
  cases scopes_get ctx.scopes name <;> exact ⟨⟨by simp, by simp⟩, rfl, rfl⟩

theorem resOk_pure (a : α) : ResOk (pure a : Res α) := ⟨by simp [Pure.pure], by simp [Pure.pure]⟩

theorem resOk_ok (a : α) : ResOk (Res.ok a) := ⟨by simp, by simp⟩

theorem resOk_err {e : InterpreterError} (h1 : e ≠ .LimitReached)
    (h2 : e ≠ .RecursiveLimitReached) : ResOk (Res.err e : Res α) := by
  refine ⟨fun hc => h1 ?_, fun hc => h2 ?_⟩ <;> injection hc

theorem resOk_rustPanic : ResOk (Res.rustPanic : Res α) := ⟨by simp, by simp⟩

theorem resOk_outOfFuel : ResOk (Res.outOfFuel : Res α) := ⟨by simp, by simp⟩

theorem Res_bind_def (m : Res α) (f : α → Res β) : (m >>= f) = Res.bind m f := rfl

theorem resOk_bind {m : Res α} {f : α → Res β} (hm : ResOk m) (hf : ∀ a, ResOk (f a)) :
    ResOk (m >>= f) := by
  rw [Res_bind_def]
  cases m with
  | ok a => exact hf a
  | err e =>
    refine ⟨fun hc => hm.1 ?_, fun hc => hm.2 ?_⟩ <;>
      (injection hc with h; rw [h])
  | rustPanic => exact resOk_rustPanic
  | outOfFuel => exact resOk_outOfFuel

theorem exceptOk_ok (a : α) : ExceptOk (Except.ok a : Except InterpreterError α) :=
  ⟨by simp [Res.ofExcept], by simp [Res.ofExcept]⟩

theorem exceptOk_error {e : InterpreterError} (h1 : e ≠ .LimitReached)
    (h2 : e ≠ .RecursiveLimitReached) :
    ExceptOk (Except.error e : Except InterpreterError α) := by
  refine ⟨fun hc => h1 ?_, fun hc => h2 ?_⟩ <;>
    (simp [Res.ofExcept] at hc; exact hc)

theorem exceptOk_bind {x : Except InterpreterError α} {f : α → Except InterpreterError β}
    (hx : ExceptOk x) (hf : ∀ a, ExceptOk (f a)) : ExceptOk (x >>= f) := by
  cases x with
  | ok a => exact hf a
  | error e =>
    refine ⟨fun hc => hx.1 ?_, fun hc => hx.2 ?_⟩ <;>
      (simp [Res.ofExcept, Bind.bind, Except.bind] at hc ⊢; exact hc)

theorem as_byte_ok (v : Value) : ExceptOk (as_byte v) := by
  cases v <;> simp [as_byte, ExceptOk, ResOk, Res.ofExcept]

theorem as_short_ok (v : Value) : ExceptOk (as_short v) := by
  cases v <;> simp [as_short, ExceptOk, ResOk, Res.ofExcept]

theorem as_int_ok (v : Value) : ExceptOk (as_int v) := by
  cases v <;> simp [as_int, ExceptOk, ResOk, Res.ofExcept]

theorem as_long_ok (v : Value) : ExceptOk (as_long v) := by
  cases v <;> simp [as_long, ExceptOk, ResOk, Res.ofExcept]

theorem as_bool_ok (v : Value) : ExceptOk (as_bool v) := by
  cases v <;> simp [as_bool, ExceptOk, ResOk, Res.ofExcept]

theorem as_string_ok (v : Value) : ExceptOk (as_string v) := by
  cases v <;> simp [as_string, ExceptOk, ResOk, Res.ofExcept]

theorem as_map_ok (v : Value) : ExceptOk (as_map v) := by
  cases v <;> simp [as_map, ExceptOk, ResOk, Res.ofExcept]

theorem as_vec_ok (v : Value) : ExceptOk (as_vec v) := by
  cases v <;> simp [as_vec, ExceptOk, ResOk, Res.ofExcept]

theorem convert_ok (n : Nat) : ExceptOk (convert n) := by
  unfold convert
  split
  · exact exceptOk_ok _
  · exact exceptOk_error (by simp) (by simp)

theorem cast_to_byte_ok (v : Value) : ExceptOk (cast_to_byte v) := by
  cases v <;> simp [cast_to_byte, ExceptOk, ResOk, Res.ofExcept]

theorem cast_to_short_ok (v : Value) : ExceptOk (cast_to_short v) := by
  cases v <;> simp [cast_to_short, ExceptOk, ResOk, Res.ofExcept]

theorem cast_to_int_ok (v : Value) : ExceptOk (cast_to_int v) := by
  cases v <;> simp [cast_to_int, ExceptOk, ResOk, Res.ofExcept]

theorem cast_to_long_ok (v : Value) : ExceptOk (cast_to_long v) := by
  cases v <;> simp [cast_to_long, ExceptOk, ResOk, Res.ofExcept]

theorem cast_to_string_ok (v : Value) : ExceptOk (cast_to_string v) := by
  cases v <;> simp [cast_to_string, ExceptOk, ResOk, Res.ofExcept]

theorem get_type_from_value_ok (ip : Interpreter) (v : Value) :
    ExceptOk (get_type_from_value ip v) := by
  unfold get_type_from_value
  cases from_value ip v <;> simp [ExceptOk, ResOk, Res.ofExcept]

theorem get_types_from_values_ok (ip : Interpreter) (vs : List Value) :
    ExceptOk (get_types_from_values ip vs) := by
  induction vs with
  | nil => exact exceptOk_ok _
  | cons v rest ih =>
    unfold get_types_from_values
    exact exceptOk_bind (get_type_from_value_ok ip v) fun t =>
      exceptOk_bind ih fun ts => exceptOk_ok _

theorem get_function_ok (ip : Interpreter) (name : String) (ft : Option Ty)
    (ps : List Ty) : ExceptOk (get_function ip name ft ps) := by
  unfold get_function
  cases (ip.program.functions ++ ip.env.functions).find? (function_matches name ft ps) <;>
    simp [ExceptOk, ResOk, Res.ofExcept]

theorem ctx_get_variable_ok (ctx : Context) (name : String) :
    ExceptOk (ctx_get_variable ctx name) := by
  unfold ctx_get_variable
  cases scopes_get ctx.scopes name <;> simp [ExceptOk, ResOk, Res.ofExcept]

theorem resOk_ofE {x : Except InterpreterError α} (h : ExceptOk x) :
    ResOk (Res.ofExcept x) := h

/-- `is_same_value` (with its two loops) never produces a meter error. -/
theorem is_same_value_ok (ip : Interpreter) : ∀ fuel,
    (∀ t l r, ResOk (is_same_value ip fuel t l r)) ∧
    (∀ sn lm rm, ResOk (struct_fields_equal ip fuel sn lm rm)) ∧
    (∀ t lv rv, ResOk (values_equal ip fuel t lv rv)) := by
  intro fuel
  induction fuel with
  | zero =>
    refine ⟨fun t l r => ?_, fun sn lm rm => ?_, fun t lv rv => ?_⟩ <;>
      simp [is_same_value, struct_fields_equal, values_equal, ResOk]
  | succ n ih =>
    obtain ⟨ih1, ih2, ih3⟩ := ih
    refine ⟨fun t l r => ?_, fun sn lm rm => ?_, fun t lv rv => ?_⟩
    · cases t with
      | Any => exact resOk_err (by simp) (by simp)
      | Byte =>
        exact resOk_bind (resOk_ofE (as_byte_ok l)) fun a =>
          resOk_bind (resOk_ofE (as_byte_ok r)) fun b => resOk_pure _
      | Short =>
        exact resOk_bind (resOk_ofE (as_short_ok l)) fun a =>
          resOk_bind (resOk_ofE (as_short_ok r)) fun b => resOk_pure _
      | Int =>
        exact resOk_bind (resOk_ofE (as_int_ok l)) fun a =>
          resOk_bind (resOk_ofE (as_int_ok r)) fun b => resOk_pure _
      | Long =>
        exact resOk_bind (resOk_ofE (as_long_ok l)) fun a =>
          resOk_bind (resOk_ofE (as_long_ok r)) fun b => resOk_pure _
      | Boolean =>
        exact resOk_bind (resOk_ofE (as_bool_ok l)) fun a =>
          resOk_bind (resOk_ofE (as_bool_ok r)) fun b => resOk_pure _
      | String =>
        exact resOk_bind (resOk_ofE (as_string_ok l)) fun a =>
          resOk_bind (resOk_ofE (as_string_ok r)) fun b => resOk_pure _
      | Struct sn =>
        refine resOk_bind (resOk_ofE (as_map_ok l)) fun lm =>
          resOk_bind (resOk_ofE (as_map_ok r)) fun rm => ?_
        split
        · exact ih2 sn lm rm
        · exact resOk_pure _
      | Array sub =>
        refine resOk_bind (resOk_ofE (as_vec_ok l)) fun lv =>
          resOk_bind (resOk_ofE (as_vec_ok r)) fun rv => ?_
        split
        · exact ih3 sub lv rv
        · exact resOk_pure _
    · match lm with
      | [] => exact resOk_pure _
      | (k, v) :: rest =>
        simp only [struct_fields_equal]
        split
        · split
          · split
            · apply resOk_bind (resOk_ok _)
              intro ft
              apply resOk_bind (ih1 ft v _)
              intro same
              split
              · exact ih2 sn rest rm
              · exact resOk_pure _
            · apply resOk_bind (resOk_err (by simp) (by simp))
              intro ft
              apply resOk_bind (ih1 ft v _)
              intro same
              split
              · exact ih2 sn rest rm
              · exact resOk_pure _
          · apply resOk_bind (resOk_err (by simp) (by simp))
            intro ft
            apply resOk_bind (ih1 ft v _)
            intro same
            split
            · exact ih2 sn rest rm
            · exact resOk_pure _
        · apply resOk_bind (resOk_pure _)
          intro same
          split
          · exact ih2 sn rest rm
          · exact resOk_pure _
    · match lv, rv with
      | [], _ => exact resOk_pure _
      | _ :: _, [] => exact resOk_pure _
      | l :: lr, r :: rr =>
        simp only [values_equal]
        apply resOk_bind (ih1 t l r)
        intro same
        split
        · exact ih3 t lr rr
        · exact resOk_pure _

theorem to_byte_ok (v : Value) : ExceptOk (to_byte v) := as_byte_ok v

theorem to_short_ok (v : Value) : ExceptOk (to_short v) := as_short_ok v

theorem to_int_ok (v : Value) : ExceptOk (to_int v) := as_int_ok v

theorem to_long_ok (v : Value) : ExceptOk (to_long v) := as_long_ok v

theorem to_bool_ok (v : Value) : ExceptOk (to_bool v) := as_bool_ok v

theorem to_string_v_ok (v : Value) : ExceptOk (to_string_v v) := as_string_ok v

theorem to_vec_ok (v : Value) : ExceptOk (to_vec v) := as_vec_ok v

set_option maxHeartbeats 2000000 in
/-- The compound-assignment computation is inert: it never touches the
state or the context and cannot produce a meter error (it may panic on a
zero modulo divisor). -/
theorem inert_assign_op_value (op : Operator) (pt : Ty) (pv v : Value) :
    Inert (assign_op_value op pt pv v) := by
  cases op <;> cases pt <;>
    simp only [assign_op_value] <;>
    repeat'
      first
      | split
      | apply inert_bind
      | exact inert_pure _
      | exact inert_panicM
      | exact inert_exec_overflow _ _
      | exact inert_modulo_or_panic _ _ _
      | exact inert_liftE (as_byte_ok _)
      | exact inert_liftE (as_short_ok _)
      | exact inert_liftE (as_int_ok _)
      | exact inert_liftE (as_long_ok _)
      | exact inert_liftE (as_string_ok _)
      | exact inert_liftE (convert_ok _)
      | exact inert_throw (by simp) (by simp)
      | intro _

set_option maxHeartbeats 2000000 in
/-- The pure binary computation is inert. -/
theorem inert_binary_op_value (ip : Interpreter) (fuel : Nat) (op : Operator)
    (lt rt : Ty) (l r : Value) : Inert (binary_op_value ip fuel op lt rt l r) := by
  cases op <;> cases lt <;>
    simp only [binary_op_value] <;>
    repeat'
      first
      | split
      | apply inert_bind
      | exact inert_pure _
      | exact inert_panicM
      | exact inert_exec_overflow _ _
      | exact inert_modulo_or_panic _ _ _
      | exact inert_liftRes ((is_same_value_ok ip fuel).1 _ _ _)
      | exact inert_liftE (to_byte_ok _)
      | exact inert_liftE (to_short_ok _)
      | exact inert_liftE (to_int_ok _)
      | exact inert_liftE (to_long_ok _)
      | exact inert_liftE (as_string_ok _)
      | exact inert_liftE (convert_ok _)
      | exact inert_throw (by simp) (by simp)
      | intro _

/-- Sequencing preserves the run invariant. -/
theorem invOn_bind {ip : Interpreter} {m : M α} {f : α → M β}
    (hm : InvOn ip m) (hf : ∀ a, InvOn ip (f a)) : InvOn ip (m >>= f) := by
  intro st ctx
  rw [M_bind_def]
  unfold M.bind
  have h1 := hm st ctx
  rcases hr : m st ctx with ⟨r, st1, ctx1⟩
  rw [hr] at h1
  cases r with
  | ok a =>
    have h2 := hf a st1 ctx1
    exact {
      count_mono := le_trans h1.count_mono h2.count_mono
      limit := fun hl => ⟨(h2.limit hl).1, (h2.limit hl).2⟩
      rec_ok := fun hex => by rw [h2.rec_ok hex]; exact h1.rec_ok ⟨a, rfl⟩
      rec_rlr := fun hrlr => by rw [h2.rec_rlr hrlr, h1.rec_ok ⟨a, rfl⟩]
      rec_bound := fun hnp => by
        have hb := h2.rec_bound hnp
        rw [h1.rec_ok ⟨a, rfl⟩] at hb
        exact hb
      scopes_mono := le_trans h1.scopes_mono h2.scopes_mono
      scopes_ok := fun hex => by rw [h2.scopes_ok hex, h1.scopes_ok ⟨a, rfl⟩] }
  | err e =>
    exact {
      count_mono := h1.count_mono
      limit := fun hl => h1.limit (by injection hl with h3; rw [h3])
      rec_ok := by rintro ⟨a, ha⟩; simp at ha
      rec_rlr := fun hl => h1.rec_rlr (by injection hl with h3; rw [h3])
      rec_bound := fun _ => h1.rec_bound (by simp)
      scopes_mono := h1.scopes_mono
      scopes_ok := by rintro ⟨a, ha⟩; simp at ha }
  | rustPanic =>
    exact {
      count_mono := h1.count_mono
      limit := by intro hl; simp at hl
      rec_ok := by rintro ⟨a, ha⟩; simp at ha
      rec_rlr := by intro hl; simp at hl
      rec_bound := fun hnp => absurd rfl hnp
      scopes_mono := h1.scopes_mono
      scopes_ok := by rintro ⟨a, ha⟩; simp at ha }
  | outOfFuel =>
    exact {
      count_mono := h1.count_mono
      limit := by intro hl; simp at hl
      rec_ok := by rintro ⟨a, ha⟩; simp at ha
      rec_rlr := by intro hl; simp at hl
      rec_bound := fun _ => h1.rec_bound (by simp)
      scopes_mono := h1.scopes_mono
      scopes_ok := by rintro ⟨a, ha⟩; simp at ha }

theorem invOn_pure (ip : Interpreter) (a : α) : InvOn ip (pure a : M α) :=
  invOn_of_inert (inert_pure a) ip

/-- `increment_expr` satisfies the invariant: on failure the count has
reached an enabled limit. -/
theorem invOn_increment_expr (ip : Interpreter) : InvOn ip (increment_expr ip) := by
  intro st ctx
  unfold increment_expr
  dsimp only
  split
  case isTrue h =>
    simp only [Bool.and_eq_true, bne_iff_ne, ne_eq, decide_eq_true_eq] at h
    exact {
      count_mono := by simp
      limit := fun _ => ⟨h.1, h.2⟩
      rec_ok := by simp
      rec_rlr := by intro hc; injection hc with hc2; cases hc2
      rec_bound := fun _ => by simp
      scopes_mono := le_refl _
      scopes_ok := fun _ => rfl }
  case isFalse h =>
    exact {
      count_mono := by simp
      limit := by intro hc; injection hc
      rec_ok := fun _ => rfl
      rec_rlr := by intro hc; injection hc
      rec_bound := fun _ => by simp
      scopes_mono := le_refl _
      scopes_ok := fun _ => rfl }

theorem scopes_modify_length (s : List (List (String × Variable))) (n : String)
    (f : Variable → Variable) : (scopes_modify s n f).length = s.length := by
  induction s with
  | nil => rfl
  | cons sc rest ih =>
    unfold scopes_modify
    split <;> simp [ih]

theorem ctx_register_cases (ctx : Context) (name : String) (v : Variable) :
    (∃ c, ctx_register_variable ctx name v = Except.ok c ∧
      c.scopes.length = ctx.scopes.length) ∨
    (∃ e, ctx_register_variable ctx name v = Except.error e ∧
      e ≠ .LimitReached ∧ e ≠ .RecursiveLimitReached) := by
  unfold ctx_register_variable
  split
  · exact Or.inr ⟨_, rfl, by simp, by simp⟩
  · split
    · exact Or.inr ⟨_, rfl, by simp, by simp⟩
    · rename_i heq
      exact Or.inl ⟨_, rfl, by simp [heq]⟩

theorem invOn_register_variableM (ip : Interpreter) (name : String) (v : Variable) :
    InvOn ip (register_variableM name v) := by
  intro st ctx
  unfold register_variableM
  rcases ctx_register_cases ctx name v with ⟨c, hc, hlen⟩ | ⟨e, he, he1, he2⟩
  · rw [hc]
    exact {
      count_mono := le_refl _
      limit := by intro hc2; injection hc2
      rec_ok := fun _ => rfl
      rec_rlr := by intro hc2; injection hc2
      rec_bound := fun _ => by simp
      scopes_mono := le_of_eq hlen.symm
      scopes_ok := fun _ => hlen }
  · rw [he]
    exact {
      count_mono := le_refl _
      limit := by intro hc2; injection hc2 with h3; exact absurd h3 he1
      rec_ok := by simp
      rec_rlr := by intro hc2; injection hc2 with h3; exact absurd h3 he2
      rec_bound := fun _ => by simp
      scopes_mono := le_refl _
      scopes_ok := fun _ => rfl }

theorem invOn_set_variable_valueM (ip : Interpreter) (name : String) (v : Value) :
    InvOn ip (set_variable_valueM name v) := by
  intro st ctx
  unfold set_variable_valueM ctx_set_variable_value
  by_cases hv : has_variable ctx name = true
  · simp only [if_pos hv]
    exact {
      count_mono := le_refl _
      limit := by intro hc2; injection hc2
      rec_ok := fun _ => rfl
      rec_rlr := by intro hc2; injection hc2
      rec_bound := fun _ => by simp
      scopes_mono := by simp [scopes_modify_length]
      scopes_ok := fun _ => by simp [scopes_modify_length] }
  · simp only [if_neg hv]
    exact {
      count_mono := le_refl _
      limit := by intro hc2; injection hc2 with h3; cases h3
      rec_ok := by rintro ⟨a, ha⟩; simp at ha
      rec_rlr := by intro hc2; injection hc2 with h3; cases h3
      rec_bound := fun _ => by simp
      scopes_mono := le_refl _
      scopes_ok := fun _ => rfl }

theorem invOn_write_pathM (ip : Interpreter) (pr : PathRef) (v : Value) :
    InvOn ip (write_pathM pr v) := by
  unfold write_pathM
  split
  · intro st ctx
    exact {
      count_mono := le_refl _
      limit := by intro hc2; injection hc2
      rec_ok := fun _ => rfl
      rec_rlr := by intro hc2; injection hc2
      rec_bound := fun _ => by simp
      scopes_mono := by simp [ctx_write, scopes_modify_length]
      scopes_ok := fun _ => by simp [ctx_write, scopes_modify_length] }
  · exact invOn_pure ip ()

theorem invOn_set_loop_breakM (ip : Interpreter) (b : Bool) :
    InvOn ip (set_loop_breakM b) := by
  intro st ctx
  exact {
    count_mono := le_refl _
    limit := by intro hc2; injection hc2
    rec_ok := fun _ => rfl
    rec_rlr := by intro hc2; injection hc2
    rec_bound := fun _ => ⟨le_refl _, Nat.le_succ _⟩
    scopes_mono := le_refl _
    scopes_ok := fun _ => rfl }

theorem invOn_set_loop_continueM (ip : Interpreter) (b : Bool) :
    InvOn ip (set_loop_continueM b) := by
  intro st ctx
  exact {
    count_mono := le_refl _
    limit := by intro hc2; injection hc2
    rec_ok := fun _ => rfl
    rec_rlr := by intro hc2; injection hc2
    rec_bound := fun _ => ⟨le_refl _, Nat.le_succ _⟩
    scopes_mono := le_refl _
    scopes_ok := fun _ => rfl }

theorem invOn_getCtx (ip : Interpreter) : InvOn ip M.getCtx := by
  intro st ctx
  exact {
    count_mono := le_refl _
    limit := by intro hc2; injection hc2
    rec_ok := fun _ => rfl
    rec_rlr := by intro hc2; injection hc2
    rec_bound := fun _ => ⟨le_refl _, Nat.le_succ _⟩
    scopes_mono := le_refl _
    scopes_ok := fun _ => rfl }

theorem invOn_liftE {x : Except InterpreterError α} (h : ExceptOk x)
    (ip : Interpreter) : InvOn ip (M.liftE x) :=
  invOn_of_inert (inert_liftE h) ip

theorem invOn_noFuel (ip : Interpreter) : InvOn ip (M.noFuel : M α) :=
  invOn_of_inert inert_noFuel ip

theorem invOn_throw {e : InterpreterError} (h1 : e ≠ .LimitReached)
    (h2 : e ≠ .RecursiveLimitReached) (ip : Interpreter) :
    InvOn ip (M.throw e : M α) :=
  invOn_of_inert (inert_throw h1 h2) ip

/-- Compose the invariant across a successful first step. -/
theorem inv_comp {ip : Interpreter} {st : EState} {ctx : Context} {a : α}
    {st1 : EState} {ctx1 : Context} {out : Res β × EState × Context}
    (h1 : Inv ip st ctx ((Res.ok a : Res α), st1, ctx1))
    (h2 : Inv ip st1 ctx1 out) : Inv ip st ctx out := {
  count_mono := le_trans h1.count_mono h2.count_mono
  limit := h2.limit
  rec_ok := fun hex => by rw [h2.rec_ok hex]; exact h1.rec_ok ⟨a, rfl⟩
  rec_rlr := fun hrlr => by rw [h2.rec_rlr hrlr, h1.rec_ok ⟨a, rfl⟩]
  rec_bound := fun hnp => by
    have hb := h2.rec_bound hnp
    rw [h1.rec_ok ⟨a, rfl⟩] at hb
    exact hb
  scopes_mono := le_trans h1.scopes_mono h2.scopes_mono
  scopes_ok := fun hex => by rw [h2.scopes_ok hex, h1.scopes_ok ⟨a, rfl⟩] }

/-- Transfer the invariant of an error outcome across the result type. -/
theorem inv_err_retag {ip : Interpreter} {st : EState} {ctx : Context} {e : InterpreterError}
    {st1 : EState} {ctx1 : Context}
    (h : Inv ip st ctx ((Res.err e : Res α), st1, ctx1)) :
    Inv ip st ctx ((Res.err e : Res β), st1, ctx1) := {
  count_mono := h.count_mono
  limit := fun hl => h.limit (by injection hl with h3; rw [h3])
  rec_ok := by rintro ⟨a, ha⟩; simp at ha
  rec_rlr := fun hl => h.rec_rlr (by injection hl with h3; rw [h3])
  rec_bound := fun _ => h.rec_bound (by simp)
  scopes_mono := h.scopes_mono
  scopes_ok := by rintro ⟨a, ha⟩; simp at ha }

/-- Transfer the invariant of a panic outcome across the result type. -/
theorem inv_panic_retag {ip : Interpreter} {st : EState} {ctx : Context}
    {st1 : EState} {ctx1 : Context}
    (h : Inv ip st ctx ((Res.rustPanic : Res α), st1, ctx1)) :
    Inv ip st ctx ((Res.rustPanic : Res β), st1, ctx1) := {
  count_mono := h.count_mono
  limit := by intro hl; simp at hl
  rec_ok := by rintro ⟨a, ha⟩; simp at ha
  rec_rlr := by intro hl; simp at hl
  rec_bound := fun hnp => absurd rfl hnp
  scopes_mono := h.scopes_mono
  scopes_ok := by rintro ⟨a, ha⟩; simp at ha }

/-- Transfer the invariant of a fuel-exhaustion outcome across the result
type. -/
theorem inv_fuel_retag {ip : Interpreter} {st : EState} {ctx : Context}
    {st1 : EState} {ctx1 : Context}
    (h : Inv ip st ctx ((Res.outOfFuel : Res α), st1, ctx1)) :
    Inv ip st ctx ((Res.outOfFuel : Res β), st1, ctx1) := {
  count_mono := h.count_mono
  limit := by intro hl; simp at hl
  rec_ok := by rintro ⟨a, ha⟩; simp at ha
  rec_rlr := by intro hl; simp at hl
  rec_bound := fun _ => h.rec_bound (by simp)
  scopes_mono := h.scopes_mono
  scopes_ok := by rintro ⟨a, ha⟩; simp at ha }

/-- A non-`ok` outcome observed under one extra scope still satisfies the
invariant relative to the base context (the leaked scope only grows the
stack). -/
theorem inv_after_push {ip : Interpreter} {st : EState} {ctx : Context}
    {out : Res α × EState × Context}
    (h : Inv ip st { ctx with scopes := [] :: ctx.scopes } out)
    (hnok : ∀ a, out.1 ≠ Res.ok a) : Inv ip st ctx out := {
  count_mono := h.count_mono
  limit := h.limit
  rec_ok := by rintro ⟨a, ha⟩; exact absurd ha (hnok a)
  rec_rlr := h.rec_rlr
  rec_bound := h.rec_bound
  scopes_mono := le_trans (by simp) h.scopes_mono
  scopes_ok := by rintro ⟨a, ha⟩; exact absurd ha (hnok a) }

/-- The body-then-pop tail shared by every scope-opening statement: run
the block from a context one scope deeper than the base, pop on both
normal exits, continue with `k` when the block yields nothing. -/
theorem scope_tail_inv {ip : Interpreter} {m k : M (Option Value)}
    (hm : InvOn ip m) (hk : InvOn ip k)
    {st0 : EState} {ctx0 : Context} {st : EState} {ctx : Context}
    (hcount : st0.count_expr ≤ st.count_expr)
    (hrec : st.recursive = st0.recursive)
    (hlen : ctx.scopes.length = ctx0.scopes.length + 1) :
    Inv ip st0 ctx0 ((do
      let r ← m
      match r with
      | some v => do
        end_scope
        pure (some v)
      | none => do
        end_scope
        k) st ctx) := by
  show Inv ip st0 ctx0 ((M.bind m _) st ctx)
  unfold M.bind
  have h1 := hm st ctx
  rcases hr : m st ctx with ⟨r, st1, ctx1⟩
  rw [hr] at h1
  cases r with
  | ok ov =>
    have hlen1 : ctx1.scopes.length = ctx0.scopes.length + 1 := by
      rw [h1.scopes_ok ⟨ov, rfl⟩, hlen]
    rcases hsc : ctx1.scopes with _ | ⟨sc, rest⟩
    · rw [hsc] at hlen1; simp at hlen1
    · have hrest : rest.length = ctx0.scopes.length := by
        rw [hsc] at hlen1; simpa using hlen1
      cases ov with
      | some v =>
        show Inv ip st0 ctx0 ((M.bind end_scope _) st1 ctx1)
        unfold M.bind end_scope
        rw [hsc]
        exact {
          count_mono := le_trans hcount h1.count_mono
          limit := by intro hc; simp [M.pure, Pure.pure] at hc
          rec_ok := fun _ => by
            show st1.recursive = st0.recursive
            rw [h1.rec_ok ⟨some v, rfl⟩, hrec]
          rec_rlr := by intro hc; simp [M.pure, Pure.pure] at hc
          rec_bound := fun _ => by
            show st0.recursive ≤ st1.recursive ∧ st1.recursive ≤ st0.recursive + 1
            rw [h1.rec_ok ⟨some v, rfl⟩, hrec]
            exact ⟨le_refl _, Nat.le_succ _⟩
          scopes_mono := by simp [M.pure, Pure.pure, hrest]
          scopes_ok := fun _ => by simp [M.pure, Pure.pure, hrest] }
      | none =>
        show Inv ip st0 ctx0 ((M.bind end_scope _) st1 ctx1)
        unfold M.bind end_scope
        rw [hsc]
        have h2 := hk st1 { ctx1 with scopes := rest }
        exact {
          count_mono := le_trans hcount (le_trans h1.count_mono h2.count_mono)
          limit := h2.limit
          rec_ok := fun hex => by
            show (k st1 { ctx1 with scopes := rest }).2.1.recursive = st0.recursive
            rw [h2.rec_ok hex, h1.rec_ok ⟨none, rfl⟩, hrec]
          rec_rlr := fun hrlr => by
            show (k st1 { ctx1 with scopes := rest }).2.1.recursive = st0.recursive + 1
            rw [h2.rec_rlr hrlr, h1.rec_ok ⟨none, rfl⟩, hrec]
          rec_bound := fun hnp => by
            have hb := h2.rec_bound hnp
            rw [h1.rec_ok ⟨none, rfl⟩, hrec] at hb
            exact hb
          scopes_mono := by
            have := h2.scopes_mono
            simp only [hrest] at this
            exact this
          scopes_ok := fun hex => by
            have := h2.scopes_ok hex
            simp only [hrest] at this
            exact this }
  | err e =>
    exact {
      count_mono := le_trans hcount h1.count_mono
      limit := h1.limit
      rec_ok := by rintro ⟨a, ha⟩; simp at ha
      rec_rlr := fun hc => by rw [h1.rec_rlr hc, hrec]
      rec_bound := fun hnp => by
        have hb := h1.rec_bound hnp
        rw [hrec] at hb
        exact hb
      scopes_mono := le_trans (by omega) h1.scopes_mono
      scopes_ok := by rintro ⟨a, ha⟩; simp at ha }
  | rustPanic =>
    exact {
      count_mono := le_trans hcount h1.count_mono
      limit := by intro hc; simp at hc
      rec_ok := by rintro ⟨a, ha⟩; simp at ha
      rec_rlr := by intro hc; simp at hc
      rec_bound := fun hnp => absurd rfl hnp
      scopes_mono := le_trans (by omega) h1.scopes_mono
      scopes_ok := by rintro ⟨a, ha⟩; simp at ha }
  | outOfFuel =>
    exact {
      count_mono := le_trans hcount h1.count_mono
      limit := by intro hc; simp at hc
      rec_ok := by rintro ⟨a, ha⟩; simp at ha
      rec_rlr := by intro hc; simp at hc
      rec_bound := fun hnp => by
        have hb := h1.rec_bound hnp
        rw [hrec] at hb
        exact hb
      scopes_mono := le_trans (by omega) h1.scopes_mono
      scopes_ok := by rintro ⟨a, ha⟩; simp at ha }

/-- The scope-wrapped block pattern of `If`/`ElseIf`/`Else`/`Scope`/`While`. -/
theorem invOn_scoped {ip : Interpreter} {m k : M (Option Value)}
    (hm : InvOn ip m) (hk : InvOn ip k) :
    InvOn ip (do
      begin_scope
      let r ← m
      match r with
      | some v => do
        end_scope
        pure (some v)
      | none => do
        end_scope
        k) := by
  intro st ctx
  exact scope_tail_inv hm hk (le_refl _) rfl (by simp)

/-- The scope-wrapped pattern of `For`/`ForEach`: push a scope, evaluate
a value, register a variable from it, run the loop, pop on both normal
exits. -/
theorem invOn_scoped_reg {ip : Interpreter} {e1 : M α} {g : α → Variable}
    {nm : String} {loopM k : M (Option Value)}
    (he1 : InvOn ip e1) (hloop : InvOn ip loopM) (hk : InvOn ip k) :
    InvOn ip (do
      begin_scope
      let x ← e1
      register_variableM nm (g x)
      let r ← loopM
      match r with
      | some v => do
        end_scope
        pure (some v)
      | none => do
        end_scope
        k) := by
  intro st ctx
  show Inv ip st ctx ((M.bind e1 _) st { ctx with scopes := [] :: ctx.scopes })
  unfold M.bind
  have h1 := he1 st { ctx with scopes := [] :: ctx.scopes }
  rcases hr : e1 st { ctx with scopes := [] :: ctx.scopes } with ⟨r, stA, ctxA⟩
  rw [hr] at h1
  cases r with
  | ok x =>
    show Inv ip st ctx ((M.bind (register_variableM nm (g x)) _) stA ctxA)
    unfold M.bind
    have h2 := invOn_register_variableM ip nm (g x) stA ctxA
    rcases hr2 : register_variableM nm (g x) stA ctxA with ⟨r2, stB, ctxB⟩
    rw [hr2] at h2
    cases r2 with
    | ok u =>
      refine scope_tail_inv hloop hk ?_ ?_ ?_
      · exact le_trans h1.count_mono h2.count_mono
      · rw [h2.rec_ok ⟨u, rfl⟩, h1.rec_ok ⟨x, rfl⟩]
      · rw [h2.scopes_ok ⟨u, rfl⟩, h1.scopes_ok ⟨x, rfl⟩]
        simp
    | err e =>
      exact inv_after_push (inv_comp h1 (inv_err_retag h2)) (fun a => by simp)
    | rustPanic =>
      exact inv_after_push (inv_comp h1 (inv_panic_retag h2)) (fun a => by simp)
    | outOfFuel =>
      exact inv_after_push (inv_comp h1 (inv_fuel_retag h2)) (fun a => by simp)
  | err e =>
    exact inv_after_push (inv_err_retag h1) (fun a => by simp)
  | rustPanic =>
    exact inv_after_push (inv_panic_retag h1) (fun a => by simp)
  | outOfFuel =>
    exact inv_after_push (inv_fuel_retag h1) (fun a => by simp)

theorem stInvOn_of_invOn {ip : Interpreter} {m : M α} (h : InvOn ip m) : StInvOn ip m := by
  intro st ctx
  have h1 := h st ctx
  exact {
    count_mono := h1.count_mono
    limit := h1.limit
    rec_ok := h1.rec_ok
    rec_rlr := h1.rec_rlr
    rec_bound := h1.rec_bound }

theorem stInv_comp {ip : Interpreter} {st : EState} {a : α}
    {st1 : EState} {ctx1 : Context} {out : Res β × EState × Context}
    (h1 : StInv ip st ((Res.ok a : Res α), st1, ctx1))
    (h2 : StInv ip st1 out) : StInv ip st out := {
  count_mono := le_trans h1.count_mono h2.count_mono
  limit := h2.limit
  rec_ok := fun hex => by rw [h2.rec_ok hex]; exact h1.rec_ok ⟨a, rfl⟩
  rec_rlr := fun hrlr => by rw [h2.rec_rlr hrlr, h1.rec_ok ⟨a, rfl⟩]
  rec_bound := fun hnp => by
    have hb := h2.rec_bound hnp
    rw [h1.rec_ok ⟨a, rfl⟩] at hb
    exact hb }

theorem stInv_err_retag {ip : Interpreter} {st : EState} {e : InterpreterError}
    {st1 : EState} {ctx1 : Context}
    (h : StInv ip st ((Res.err e : Res α), st1, ctx1)) :
    StInv ip st ((Res.err e : Res β), st1, ctx1) := {
  count_mono := h.count_mono
  limit := fun hl => h.limit (by injection hl with h3; rw [h3])
  rec_ok := by rintro ⟨a, ha⟩; simp at ha
  rec_rlr := fun hl => h.rec_rlr (by injection hl with h3; rw [h3])
  rec_bound := fun _ => h.rec_bound (by simp) }

theorem stInv_panic_retag {ip : Interpreter} {st : EState}
    {st1 : EState} {ctx1 : Context}
    (h : StInv ip st ((Res.rustPanic : Res α), st1, ctx1)) :
    StInv ip st ((Res.rustPanic : Res β), st1, ctx1) := {
  count_mono := h.count_mono
  limit := by intro hl; simp at hl
  rec_ok := by rintro ⟨a, ha⟩; simp at ha
  rec_rlr := by intro hl; simp at hl
  rec_bound := fun hnp => absurd rfl hnp }

theorem stInv_fuel_retag {ip : Interpreter} {st : EState}
    {st1 : EState} {ctx1 : Context}
    (h : StInv ip st ((Res.outOfFuel : Res α), st1, ctx1)) :
    StInv ip st ((Res.outOfFuel : Res β), st1, ctx1) := {
  count_mono := h.count_mono
  limit := by intro hl; simp at hl
  rec_ok := by rintro ⟨a, ha⟩; simp at ha
  rec_rlr := by intro hl; simp at hl
  rec_bound := fun _ => h.rec_bound (by simp) }

theorem stInvOn_bind {ip : Interpreter} {m : M α} {f : α → M β}
    (hm : StInvOn ip m) (hf : ∀ a, StInvOn ip (f a)) : StInvOn ip (m >>= f) := by
  intro st ctx
  rw [M_bind_def]
  unfold M.bind
  have h1 := hm st ctx
  rcases hr : m st ctx with ⟨r, st1, ctx1⟩
  rw [hr] at h1
  cases r with
  | ok a => exact stInv_comp h1 (hf a st1 ctx1)
  | err e => exact stInv_err_retag h1
  | rustPanic => exact stInv_panic_retag h1
  | outOfFuel => exact stInv_fuel_retag h1

theorem stInvOn_begin_scope (ip : Interpreter) : StInvOn ip begin_scope := by
  intro st ctx
  exact {
    count_mono := le_refl _
    limit := by intro hc; injection hc
    rec_ok := fun _ => rfl
    rec_rlr := by intro hc; injection hc
    rec_bound := fun _ => ⟨le_refl _, Nat.le_succ _⟩ }

/-- The capture-then-pop-then-reraise tail of `execute_function`. -/
theorem stInvOn_try_end {ip : Interpreter} {body : M (Option Value)}
    (hbody : StInvOn ip body) :
    StInvOn ip (do
      let result ← M.tryM body
      end_scope
      M.liftRes result) := by
  intro st ctx
  show StInv ip st ((M.bind (M.tryM body) _) st ctx)
  unfold M.bind M.tryM
  have h1 := hbody st ctx
  rcases hr : body st ctx with ⟨r, st1, ctx1⟩
  rw [hr] at h1
  cases r with
  | rustPanic => exact stInv_panic_retag h1
  | ok a =>
    show StInv ip st ((M.bind end_scope _) st1 ctx1)
    unfold M.bind end_scope
    rcases ctx1.scopes with _ | ⟨sc, rest⟩
    · exact {
        count_mono := h1.count_mono
        limit := by intro hc; injection hc with h3; cases h3
        rec_ok := by rintro ⟨a2, ha⟩; simp at ha
        rec_rlr := by intro hc; injection hc with h3; cases h3
        rec_bound := fun _ => h1.rec_bound (by simp) }
    · exact {
        count_mono := h1.count_mono
        limit := by intro hc; simp [M.liftRes] at hc
        rec_ok := fun _ => h1.rec_ok ⟨a, rfl⟩
        rec_rlr := by
          intro hc
          simp [M.liftRes] at hc
        rec_bound := fun _ => h1.rec_bound (by simp) }
  | err e =>
    show StInv ip st ((M.bind end_scope _) st1 ctx1)
    unfold M.bind end_scope
    rcases ctx1.scopes with _ | ⟨sc, rest⟩
    · exact {
        count_mono := h1.count_mono
        limit := by intro hc; injection hc with h3; cases h3
        rec_ok := by rintro ⟨a2, ha⟩; simp at ha
        rec_rlr := by intro hc; injection hc with h3; cases h3
        rec_bound := fun _ => h1.rec_bound (by simp) }
    · exact {
        count_mono := h1.count_mono
        limit := fun hc => h1.limit (by
          simp [M.liftRes] at hc
          rw [hc])
        rec_ok := by rintro ⟨a2, ha⟩; simp [M.liftRes] at ha
        rec_rlr := fun hc => h1.rec_rlr (by
          simp [M.liftRes] at hc
          rw [hc])
        rec_bound := fun _ => h1.rec_bound (by simp) }
  | outOfFuel =>
    show StInv ip st ((M.bind end_scope _) st1 ctx1)
    unfold M.bind end_scope
    rcases ctx1.scopes with _ | ⟨sc, rest⟩
    · exact {
        count_mono := h1.count_mono
        limit := by intro hc; injection hc with h3; cases h3
        rec_ok := by rintro ⟨a2, ha⟩; simp at ha
        rec_rlr := by intro hc; injection hc with h3; cases h3
        rec_bound := fun _ => h1.rec_bound (by simp) }
    · exact {
        count_mono := h1.count_mono
        limit := by intro hc; simp [M.liftRes] at hc
        rec_ok := by rintro ⟨a2, ha⟩; simp [M.liftRes] at ha
        rec_rlr := by intro hc; simp [M.liftRes] at hc
        rec_bound := fun _ => h1.rec_bound (by simp) }

/-- A state-invariant computation wrapped in a fresh context satisfies
the full invariant: the caller's context is restored in every outcome. -/
theorem invOn_withNewCtx {ip : Interpreter} {m : M α}
    (hm : StInvOn ip m) : InvOn ip (M.withNewCtx m) := by
  intro st ctx
  unfold M.withNewCtx
  have h1 := hm st Context.new
  rcases hr : m st Context.new with ⟨r, st1, ctx1⟩
  rw [hr] at h1
  exact {
    count_mono := h1.count_mono
    limit := h1.limit
    rec_ok := h1.rec_ok
    rec_rlr := h1.rec_rlr
    rec_bound := h1.rec_bound
    scopes_mono := le_refl _
    scopes_ok := fun _ => rfl }

/-- `bind_params` satisfies the invariant (registration or panic). -/
theorem invOn_bind_params (ip : Interpreter) (ps : List (String × Ty)) (vs : List Value) :
    InvOn ip (bind_params ps vs) := by
  induction ps generalizing vs with
  | nil => exact invOn_pure ip ()
  | cons p rest ih =>
    rcases p with ⟨pname, ptype⟩
    unfold bind_params
    cases vs with
    | nil => exact invOn_of_inert inert_panicM ip
    | cons v vr =>
      exact invOn_bind (invOn_register_variableM ip pname ⟨v, ptype⟩) fun _ => ih vr

/-- Sequencing with knowledge about the produced value (used to thread
`NativeOkF` from function resolution into `execute_function`). -/
theorem invOn_bind_if {ip : Interpreter} {m : M α} {f : α → M β} (P : α → Prop)
    (hm : InvOn ip m)
    (hP : ∀ st ctx a st1 ctx1, m st ctx = (Res.ok a, st1, ctx1) → P a)
    (hf : ∀ a, P a → InvOn ip (f a)) : InvOn ip (m >>= f) := by
  intro st ctx
  rw [M_bind_def]
  unfold M.bind
  have h1 := hm st ctx
  rcases hr : m st ctx with ⟨r, st1, ctx1⟩
  rw [hr] at h1
  cases r with
  | ok a => exact inv_comp h1 (hf a (hP st ctx a st1 ctx1 hr) st1 ctx1)
  | err e => exact inv_err_retag h1
  | rustPanic => exact inv_panic_retag h1
  | outOfFuel => exact inv_fuel_retag h1

/-- A bind whose first step succeeded continues with its value. -/
theorem bind_ok_at {m : M α} {k : α → M β} {st : EState} {ctx : Context}
    {a : α} {st1 : EState} {ctx1 : Context}
    (h : m st ctx = (Res.ok a, st1, ctx1)) : (m >>= k) st ctx = k a st1 ctx1 := by
  rw [M_bind_def]
  unfold M.bind
  rw [h]

/-- A bind whose first step erred propagates the error as is. -/
theorem bind_err_at {m : M α} {k : α → M β} {st : EState} {ctx : Context}
    {e : InterpreterError} {st1 : EState} {ctx1 : Context}
    (h : m st ctx = (Res.err e, st1, ctx1)) :
    (m >>= k) st ctx = (Res.err e, st1, ctx1) := by
  rw [M_bind_def]
  unfold M.bind
  rw [h]

theorem crInv_noFuel (ip : Interpreter) : CRInvOn ip M.noFuel := by
  intro st ctx
  exact {
    count_mono := le_refl _
    scopes_mono := le_refl _
    cap_ok := fun res hres _ => Res.noConfusion hres
    cap_limit := fun res hres _ => Res.noConfusion hres
    cap_rlr := fun res hres _ => Res.noConfusion hres
    cap_bound := fun res hres => Res.noConfusion hres
    res_err := fun e he => Res.noConfusion he
    res_fuel := fun _ => ⟨rfl, rfl⟩ }

/-- Sequencing a lifted resolution step in front of a captured-result
computation, threading a fact about the resolved value. -/
theorem crInv_liftE_bind_if {ip : Interpreter} (P : α → Prop)
    {x : Except InterpreterError α} (hx : ExceptOk x)
    (hP : ∀ a, x = Except.ok a → P a) {f : α → M (Res (Option Value))}
    (hf : ∀ a, P a → CRInvOn ip (f a)) : CRInvOn ip (M.liftE x >>= f) := by
  intro st ctx
  cases x with
  | ok a => exact hf a (hP a rfl) st ctx
  | error e =>
    have hx2 : (Res.err e : Res α) ≠ Res.err .LimitReached ∧
        (Res.err e : Res α) ≠ Res.err .RecursiveLimitReached := hx
    exact {
      count_mono := le_refl _
      scopes_mono := le_refl _
      cap_ok := fun res hres _ => Res.noConfusion hres
      cap_limit := fun res hres _ => Res.noConfusion hres
      cap_rlr := fun res hres _ => Res.noConfusion hres
      cap_bound := fun res hres => Res.noConfusion hres
      res_err := fun e2 he => by
        injection he with h2
        subst h2
        refine ⟨rfl, rfl, ?_, ?_⟩
        · intro hcon
          exact hx2.1 (by rw [hcon])
        · intro hcon
          exact hx2.2 (by rw [hcon])
      res_fuel := fun hf2 => Res.noConfusion hf2 }

theorem crInv_liftE_bind {ip : Interpreter} {x : Except InterpreterError α}
    (hx : ExceptOk x) {f : α → M (Res (Option Value))}
    (hf : ∀ a, CRInvOn ip (f a)) : CRInvOn ip (M.liftE x >>= f) :=
  crInv_liftE_bind_if (fun _ => True) hx (fun _ _ => trivial) (fun a _ => hf a)

/-- Capturing a run that satisfies the run invariant yields the
captured-result invariant. -/
theorem crInv_tryM {ip : Interpreter} {m : M (Option Value)} (hm : InvOn ip m) :
    CRInvOn ip (M.tryM m) := by
  intro st ctx
  have h := hm st ctx
  unfold M.tryM
  rcases hr : m st ctx with ⟨r, st1, ctx1⟩
  rw [hr] at h
  cases r with
  | ok a =>
    exact {
      count_mono := h.count_mono
      scopes_mono := h.scopes_mono
      cap_ok := fun res hres _ => by
        injection hres with h2
        subst h2
        exact ⟨h.rec_ok ⟨a, rfl⟩, h.scopes_ok ⟨a, rfl⟩⟩
      cap_limit := fun res hres hlim => by
        injection hres with h2
        subst h2
        exact Res.noConfusion hlim
      cap_rlr := fun res hres hrlr => by
        injection hres with h2
        subst h2
        exact Res.noConfusion hrlr
      cap_bound := fun res hres => h.rec_bound (by simp)
      res_err := fun e he => Res.noConfusion he
      res_fuel := fun hf => Res.noConfusion hf }
  | err e =>
    exact {
      count_mono := h.count_mono
      scopes_mono := h.scopes_mono
      cap_ok := fun res hres hex => by
        injection hres with h2
        subst h2
        rcases hex with ⟨a, ha⟩
        exact Res.noConfusion ha
      cap_limit := fun res hres hlim => by
        injection hres with h2
        subst h2
        injection hlim with h3
        subst h3
        exact h.limit rfl
      cap_rlr := fun res hres hrlr => by
        injection hres with h2
        subst h2
        injection hrlr with h3
        subst h3
        exact h.rec_rlr rfl
      cap_bound := fun res hres => h.rec_bound (by simp)
      res_err := fun e2 he => Res.noConfusion he
      res_fuel := fun hf => Res.noConfusion hf }
  | rustPanic =>
    exact {
      count_mono := h.count_mono
      scopes_mono := h.scopes_mono
      cap_ok := fun res hres _ => Res.noConfusion hres
      cap_limit := fun res hres _ => Res.noConfusion hres
      cap_rlr := fun res hres _ => Res.noConfusion hres
      cap_bound := fun res hres => Res.noConfusion hres
      res_err := fun e he => Res.noConfusion he
      res_fuel := fun hf => Res.noConfusion hf }
  | outOfFuel =>
    exact {
      count_mono := h.count_mono
      scopes_mono := h.scopes_mono
      cap_ok := fun res hres hex => by
        injection hres with h2
        subst h2
        rcases hex with ⟨a, ha⟩
        exact Res.noConfusion ha
      cap_limit := fun res hres hlim => by
        injection hres with h2
        subst h2
        exact Res.noConfusion hlim
      cap_rlr := fun res hres hrlr => by
        injection hres with h2
        subst h2
        exact Res.noConfusion hrlr
      cap_bound := fun res hres => h.rec_bound (by simp)
      res_err := fun e2 he => Res.noConfusion he
      res_fuel := fun hf => Res.noConfusion hf }

/-- The function-call arm after argument evaluation: bump the recursion
depth, trip `RecursiveLimitReached` when it reached the limit, otherwise
run the call, capture its result, and decrement. -/
theorem invOn_call_arm {ip : Interpreter} {vals : M (List Value)}
    {resolver : List Value → M (Res (Option Value))}
    (hvals : InvOn ip vals) (hres : ∀ values, CRInvOn ip (resolver values)) :
    InvOn ip (do
      let values ← vals
      let st ← M.getSt
      M.setSt { st with recursive := st.recursive + 1 }
      if ip.max_recursive ≤ st.recursive + 1 then M.throw .RecursiveLimitReached
      else do
        let res ← resolver values
        let st2 ← M.getSt
        M.setSt { st2 with recursive := st2.recursive - 1 }
        M.liftRes res) := by
  intro st0 ctx0
  show Inv ip st0 ctx0 ((M.bind vals _) st0 ctx0)
  unfold M.bind
  have h1 := hvals st0 ctx0
  rcases hr : vals st0 ctx0 with ⟨rv, st1, ctx1⟩
  rw [hr] at h1
  cases rv with
  | err e => exact inv_err_retag h1
  | rustPanic => exact inv_panic_retag h1
  | outOfFuel => exact inv_fuel_retag h1
  | ok values =>
    show Inv ip st0 ctx0 ((M.bind M.getSt _) st1 ctx1)
    unfold M.bind M.getSt
    show Inv ip st0 ctx0 ((M.bind (M.setSt _) _) st1 ctx1)
    unfold M.bind M.setSt
    by_cases hguard : ip.max_recursive ≤ st1.recursive + 1
    · simp only [if_pos hguard]
      exact {
        count_mono := h1.count_mono
        limit := by intro hc; simp [M.throw] at hc
        rec_ok := by rintro ⟨a, ha⟩; simp [M.throw] at ha
        rec_rlr := fun _ => by
          show st1.recursive + 1 = st0.recursive + 1
          rw [h1.rec_ok ⟨values, rfl⟩]
        rec_bound := fun _ => by
          show st0.recursive ≤ st1.recursive + 1 ∧ st1.recursive + 1 ≤ st0.recursive + 1
          rw [h1.rec_ok ⟨values, rfl⟩]
          omega
        scopes_mono := h1.scopes_mono
        scopes_ok := by rintro ⟨a, ha⟩; simp [M.throw] at ha }
    · simp only [if_neg hguard]
      show Inv ip st0 ctx0 ((M.bind (resolver values) _)
        { st1 with recursive := st1.recursive + 1 } ctx1)
      unfold M.bind
      have h2 := hres values { st1 with recursive := st1.recursive + 1 } ctx1
      rcases ht : resolver values { st1 with recursive := st1.recursive + 1 } ctx1
        with ⟨r2, st2, ctx2⟩
      rw [ht] at h2
      have hlen1 : ctx1.scopes.length = ctx0.scopes.length := h1.scopes_ok ⟨values, rfl⟩
      have hrec1 : st1.recursive = st0.recursive := h1.rec_ok ⟨values, rfl⟩
      cases r2 with
      | rustPanic =>
        exact {
          count_mono := le_trans h1.count_mono h2.count_mono
          limit := by intro hc; simp at hc
          rec_ok := by rintro ⟨a, ha⟩; simp at ha
          rec_rlr := by intro hc; simp at hc
          rec_bound := fun hnp => absurd rfl hnp
          scopes_mono := le_trans (le_of_eq hlen1.symm) h2.scopes_mono
          scopes_ok := by rintro ⟨a, ha⟩; simp at ha }
      | err e =>
        rcases h2.res_err e rfl with ⟨hstE, hctxE, hne1, hne2⟩
        have hstE2 : st2 = { st1 with recursive := st1.recursive + 1 } := hstE
        have hctxE2 : ctx2 = ctx1 := hctxE
        have hrecE : st2.recursive = st1.recursive + 1 := by rw [hstE2]
        have hcntE : st2.count_expr = st1.count_expr := by rw [hstE2]
        have hlenE : ctx2.scopes.length = ctx1.scopes.length := by rw [hctxE2]
        exact {
          count_mono := by rw [hcntE]; exact h1.count_mono
          limit := fun hc => by
            injection hc with h3
            exact absurd h3 hne1
          rec_ok := by rintro ⟨a, ha⟩; exact Res.noConfusion ha
          rec_rlr := fun hc => by
            injection hc with h3
            exact absurd h3 hne2
          rec_bound := fun _ => by
            show st0.recursive ≤ st2.recursive ∧ st2.recursive ≤ st0.recursive + 1
            omega
          scopes_mono := by rw [hlenE, hlen1]
          scopes_ok := by rintro ⟨a, ha⟩; exact Res.noConfusion ha }
      | outOfFuel =>
        rcases h2.res_fuel rfl with ⟨hstE, hctxE⟩
        have hstE2 : st2 = { st1 with recursive := st1.recursive + 1 } := hstE
        have hctxE2 : ctx2 = ctx1 := hctxE
        have hrecE : st2.recursive = st1.recursive + 1 := by rw [hstE2]
        have hcntE : st2.count_expr = st1.count_expr := by rw [hstE2]
        have hlenE : ctx2.scopes.length = ctx1.scopes.length := by rw [hctxE2]
        exact {
          count_mono := by rw [hcntE]; exact h1.count_mono
          limit := by intro hc; exact Res.noConfusion hc
          rec_ok := by rintro ⟨a, ha⟩; exact Res.noConfusion ha
          rec_rlr := by intro hc; exact Res.noConfusion hc
          rec_bound := fun _ => by
            show st0.recursive ≤ st2.recursive ∧ st2.recursive ≤ st0.recursive + 1
            omega
          scopes_mono := by rw [hlenE, hlen1]
          scopes_ok := by rintro ⟨a, ha⟩; exact Res.noConfusion ha }
      | ok res =>
        show Inv ip st0 ctx0 ((M.bind M.getSt _) st2 ctx2)
        unfold M.bind M.getSt
        show Inv ip st0 ctx0 ((M.bind (M.setSt _) _) st2 ctx2)
        unfold M.bind M.setSt
        have hbnd : st1.recursive + 1 ≤ st2.recursive ∧
            st2.recursive ≤ st1.recursive + 1 + 1 := h2.cap_bound res rfl
        exact {
          count_mono := le_trans h1.count_mono h2.count_mono
          limit := fun hc => by
            have h3 : res = Res.err .LimitReached := hc
            have h4 : ip.max_expr ≠ 0 ∧ ip.max_expr ≤ st2.count_expr :=
              h2.cap_limit res rfl h3
            exact h4
          rec_ok := by
            rintro ⟨a, ha⟩
            have h3 : res = Res.ok a := ha
            have h4 : st2.recursive = st1.recursive + 1 :=
              (h2.cap_ok res rfl ⟨a, h3⟩).1
            show st2.recursive - 1 = st0.recursive
            omega
          rec_rlr := fun hc => by
            have h3 : res = Res.err .RecursiveLimitReached := hc
            have h4 : st2.recursive = st1.recursive + 1 + 1 := h2.cap_rlr res rfl h3
            show st2.recursive - 1 = st0.recursive + 1
            omega
          rec_bound := fun _ => by
            show st0.recursive ≤ st2.recursive - 1 ∧ st2.recursive - 1 ≤ st0.recursive + 1
            omega
          scopes_mono := le_trans (le_of_eq hlen1.symm) h2.scopes_mono
          scopes_ok := by
            rintro ⟨a, ha⟩
            have h3 : res = Res.ok a := ha
            have h4 : ctx2.scopes.length = ctx1.scopes.length :=
              (h2.cap_ok res rfl ⟨a, h3⟩).2
            show ctx2.scopes.length = ctx0.scopes.length
            rw [h4, hlen1] }

/-- The user-function body of `execute_function`: fresh context, scope,
instance binding, parameter binding, body with captured result, pop,
reraise. -/
theorem invOn_fn_body {ip : Interpreter} {pre : M Unit} {ps : List (String × Ty)}
    {vs : List Value} {body : M (Option Value)}
    (hpre : StInvOn ip pre) (hbody : StInvOn ip body) :
    InvOn ip (M.withNewCtx (do
      begin_scope
      pre
      bind_params ps vs
      let result ← M.tryM body
      end_scope
      M.liftRes result)) :=
  invOn_withNewCtx (stInvOn_bind (stInvOn_begin_scope ip) (fun _ =>
    stInvOn_bind hpre (fun _ =>
      stInvOn_bind (stInvOn_of_invOn (invOn_bind_params ip ps vs)) (fun _ =>
        stInvOn_try_end hbody))))


theorem liftE_ok {x : Except InterpreterError α} {st : EState} {ctx : Context}
    {a : α} {st1 : EState} {ctx1 : Context}
    (h : M.liftE x st ctx = (Res.ok a, st1, ctx1)) : x = Except.ok a := by
  unfold M.liftE Res.ofExcept at h
  cases x with
  | ok b => simp at h; rw [h.1]
  | error e => simp at h

theorem get_function_native_ok {ip : Interpreter} (hip : NativesOk ip)
    {name : String} {ft : Option Ty} {ps : List Ty} {f : FunctionType}
    (hget : get_function ip name ft ps = Except.ok f) : NativeOkF f := by
  unfold get_function at hget
  rcases hfind : (ip.program.functions ++ ip.env.functions).find?
      (function_matches name ft ps) with _ | f2
  · rw [hfind] at hget
    cases hget
  · rw [hfind] at hget
    injection hget with h2
    subst h2
    exact hip _ (List.mem_of_find?_eq_some hfind)

theorem evaluator_inv (ip : Interpreter) (hip : NativesOk ip) : ∀ fuel,
    (∀ (ov : Option Value) (hc : Bool) (e : Expression),
      InvOn ip (execute_expression ip fuel ov hc e)) ∧
    (∀ (ov : Option Value) (hc : Bool) (e : Expression),
      InvOn ip (execute_expression_inner ip fuel ov hc e)) ∧
    (∀ (ov : Option Value) (hc : Bool) (e : Expression),
      InvOn ip (execute_expression_and_expect_value ip fuel ov hc e)) ∧
    (∀ (hc : Bool) (es : List Expression), InvOn ip (eval_each ip fuel hc es)) ∧
    (∀ (hc : Bool) (sn : String) (s : Struct) (fs : List (String × Expression))
      (acc : List (String × Value)), InvOn ip (eval_struct_fields ip fuel hc sn s fs acc)) ∧
    (∀ (rv : Option PathRef) (hc : Bool) (e : Expression),
      InvOn ip (get_from_path ip fuel rv hc e)) ∧
    (∀ (stmts : List Statement) (ae : Bool), InvOn ip (execute_statements ip fuel stmts ae)) ∧
    (∀ (c : Expression) (b : List Statement), InvOn ip (while_loop ip fuel c b)) ∧
    (∀ (c i : Expression) (b : List Statement), InvOn ip (for_loop ip fuel c i b)) ∧
    (∀ (v : String) (vs : List Value) (b : List Statement),
      InvOn ip (foreach_loop ip fuel v vs b)) ∧
    (∀ (f : FunctionType) (ti : Option Value) (vs : List Value),
      NativeOkF f → InvOn ip (execute_function ip fuel f ti vs)) ∧
    (∀ (ov : Option Value) (name : String) (values : List Value),
      CRInvOn ip (call_resolved ip fuel ov name values)) ∧
    (∀ (stmt : Statement) (rest : List Statement) (ae : Bool),
      InvOn ip (execute_statements_inner ip fuel stmt rest ae)) := by
  intro fuel
  induction fuel with
  | zero =>
    exact ⟨fun _ _ _ => invOn_noFuel ip, fun _ _ _ => invOn_noFuel ip,
      fun _ _ _ => invOn_noFuel ip, fun _ _ => invOn_noFuel ip,
      fun _ _ _ _ _ => invOn_noFuel ip, fun _ _ _ => invOn_noFuel ip,
      fun _ _ => invOn_noFuel ip, fun _ _ => invOn_noFuel ip,
      fun _ _ _ => invOn_noFuel ip, fun _ _ _ => invOn_noFuel ip,
      fun _ _ _ _ => invOn_noFuel ip, fun _ _ _ => crInv_noFuel ip,
      fun _ _ _ => invOn_noFuel ip⟩
  | succ n ih =>
    obtain ⟨IHexpr, IHinner, IHev, IHeach, IHsf, IHpath, IHstmts, IHwhile, IHfor,
      IHfeach, IHfn, IHcr, IHstmtsInner⟩ := ih
    refine ⟨?_, ?_, ?_, ?_, ?_, ?_, ?_, ?_, ?_, ?_, ?_, ?_, ?_⟩
    · -- execute_expression
      intro ov hc e
      simp only [execute_expression]
      exact invOn_bind (invOn_increment_expr ip) fun _ => IHinner ov hc e
    · -- execute_expression_inner
      intro ov hc e
      simp only [execute_expression_inner]
      cases e with
      | FunctionCall name parameters =>
        dsimp only
        exact invOn_call_arm (IHeach hc parameters) fun values => IHcr ov name values
      | ArrayConstructor expressions =>
        dsimp only
        exact invOn_bind (IHeach hc expressions) fun values => invOn_pure ip _
      | StructConstructor struct_name expr_fields =>
        dsimp only
        split
        · exact invOn_throw (by simp) (by simp) ip
        · exact invOn_bind (IHsf hc struct_name _ expr_fields []) fun fields =>
            invOn_pure ip _
      | ArrayCall e2 e_index =>
        dsimp only
        refine invOn_bind (IHev ov hc e2) fun av => ?_
        refine invOn_bind (invOn_liftE (to_vec_ok av) ip) fun values => ?_
        refine invOn_bind (IHev none hc e_index) fun iv => ?_
        refine invOn_bind (invOn_liftE (to_int_ok iv) ip) fun index => ?_
        split
        · exact invOn_pure ip _
        · exact invOn_throw (by simp) (by simp) ip
      | IsNot e2 =>
        dsimp only
        refine invOn_bind (IHev none hc e2) fun v => ?_
        exact invOn_bind (invOn_liftE (to_bool_ok v) ip) fun b => invOn_pure ip _
      | SubExpression e2 =>
        dsimp only
        exact IHexpr none hc e2
      | Ternary condition left right =>
        dsimp only
        refine invOn_bind (IHev none hc condition) fun cv => ?_
        refine invOn_bind (invOn_liftE (to_bool_ok cv) ip) fun cb => ?_
        split
        · exact invOn_bind (IHev none hc left) fun v => invOn_pure ip _
        · exact invOn_bind (IHev none hc right) fun v => invOn_pure ip _
      | Value v =>
        dsimp only
        exact invOn_pure ip _
      | Variable var =>
        dsimp only
        cases ov with
        | some inst =>
          refine invOn_bind (invOn_liftE (as_map_ok inst) ip) fun fields => ?_
          split
          · exact invOn_pure ip _
          · exact invOn_throw (by simp) (by simp) ip
        | none =>
          cases hc with
          | true => exact invOn_of_inert (inert_get_variable_or_panicM var) ip
          | false => exact invOn_throw (by simp) (by simp) ip
      | Operator op expr_left expr_right =>
        dsimp only
        split
        · refine invOn_bind (IHev none hc expr_right) fun value => ?_
          refine invOn_bind (IHpath none hc expr_left) fun path_ref => ?_
          refine invOn_bind (invOn_liftE (get_type_from_value_ok ip path_ref.value) ip)
            fun path_type => ?_
          refine invOn_bind (invOn_liftE (get_type_from_value_ok ip value) ip)
            fun value_type => ?_
          split
          · exact invOn_throw (by simp) (by simp) ip
          · refine invOn_bind
              (invOn_of_inert (inert_assign_op_value op path_type path_ref.value value) ip)
              fun newV => ?_
            exact invOn_bind (invOn_write_pathM ip path_ref newV) fun _ => invOn_pure ip none
        · refine invOn_bind (IHev none hc expr_left) fun left => ?_
          refine invOn_bind (invOn_liftE (get_type_from_value_ok ip left) ip)
            fun left_type => ?_
          split
          · split
            · refine invOn_bind (invOn_liftE (to_bool_ok left) ip) fun lb => ?_
              split
              · exact invOn_pure ip _
              · refine invOn_bind (IHev none hc expr_right) fun right => ?_
                exact invOn_bind (invOn_liftE (to_bool_ok right) ip) fun rb => invOn_pure ip _
            · refine invOn_bind (invOn_liftE (to_bool_ok left) ip) fun lb => ?_
              split
              · refine invOn_bind (IHev none hc expr_right) fun right => ?_
                exact invOn_bind (invOn_liftE (to_bool_ok right) ip) fun rb => invOn_pure ip _
              · exact invOn_pure ip _
            · exact invOn_throw (by simp) (by simp) ip
          · refine invOn_bind (IHev none hc expr_right) fun right => ?_
            refine invOn_bind (invOn_liftE (get_type_from_value_ok ip right) ip)
              fun right_type => ?_
            split
            · exact invOn_throw (by simp) (by simp) ip
            · exact invOn_of_inert
                (inert_binary_op_value ip n op left_type right_type left right) ip
      | Path left right =>
        dsimp only
        refine invOn_bind (IHpath (ov.map fun v => PathRef.mk v none) hc left) fun pr => ?_
        exact IHexpr (some pr.value) false right
      | Cast e2 cast_type =>
        dsimp only
        refine invOn_bind (IHev ov hc e2) fun value => ?_
        cases cast_type with
        | Byte =>
          exact invOn_bind (invOn_liftE (cast_to_byte_ok value) ip) fun m => invOn_pure ip _
        | Short =>
          exact invOn_bind (invOn_liftE (cast_to_short_ok value) ip) fun m => invOn_pure ip _
        | Int =>
          exact invOn_bind (invOn_liftE (cast_to_int_ok value) ip) fun m => invOn_pure ip _
        | Long =>
          exact invOn_bind (invOn_liftE (cast_to_long_ok value) ip) fun m => invOn_pure ip _
        | String =>
          exact invOn_bind (invOn_liftE (cast_to_string_ok value) ip) fun m => invOn_pure ip _
        | Any => exact invOn_throw (by simp) (by simp) ip
        | Boolean => exact invOn_throw (by simp) (by simp) ip
        | Struct nm => exact invOn_throw (by simp) (by simp) ip
        | Array inner => exact invOn_throw (by simp) (by simp) ip
    · -- execute_expression_and_expect_value
      intro ov hc e
      simp only [execute_expression_and_expect_value]
      refine invOn_bind (IHexpr ov hc e) fun r => ?_
      cases r with
      | some v => exact invOn_pure ip v
      | none => exact invOn_throw (by simp) (by simp) ip
    · -- eval_each
      intro hc es
      cases es with
      | nil =>
        simp only [eval_each]
        exact invOn_pure ip []
      | cons e rest =>
        simp only [eval_each]
        refine invOn_bind (IHev none hc e) fun v => ?_
        exact invOn_bind (IHeach hc rest) fun vs2 => invOn_pure ip _
    · -- eval_struct_fields
      intro hc sn s fs acc
      cases fs with
      | nil =>
        simp only [eval_struct_fields]
        exact invOn_pure ip acc
      | cons p rest =>
        rcases p with ⟨pname, e2⟩
        simp only [eval_struct_fields]
        refine invOn_bind (IHev none hc e2) fun value => ?_
        refine invOn_bind (invOn_liftE (get_type_from_value_ok ip value) ip) fun vt => ?_
        split
        · exact invOn_throw (by simp) (by simp) ip
        · split
          · exact invOn_throw (by simp) (by simp) ip
          · exact IHsf hc sn s rest _
    · -- get_from_path
      intro rv hc e
      cases e with
      | ArrayCall e2 e_index =>
        simp only [get_from_path]
        refine invOn_bind (IHev none hc e_index) fun iv => ?_
        refine invOn_bind (invOn_liftE (to_int_ok iv) ip) fun index => ?_
        refine invOn_bind (IHpath rv false e2) fun arr => ?_
        refine invOn_bind (invOn_liftE (as_vec_ok arr.value) ip) fun values => ?_
        split
        · exact invOn_pure ip _
        · exact invOn_throw (by simp) (by simp) ip
      | Path l r =>
        simp only [get_from_path]
        refine invOn_bind (IHpath rv hc l) fun lv => ?_
        exact IHpath (some lv) false r
      | Variable name =>
        simp only [get_from_path]
        cases rv with
        | some r =>
          refine invOn_bind (invOn_liftE (as_map_ok r.value) ip) fun fields => ?_
          split
          · exact invOn_pure ip _
          · exact invOn_throw (by simp) (by simp) ip
        | none =>
          cases hc with
          | true =>
            refine invOn_bind (invOn_of_inert (inert_get_mut_variableM name) ip) fun va => ?_
            exact invOn_pure ip _
          | false => exact invOn_throw (by simp) (by simp) ip
      | FunctionCall nm ps => exact invOn_throw (by simp) (by simp) ip
      | ArrayConstructor es => exact invOn_throw (by simp) (by simp) ip
      | StructConstructor nm fs => exact invOn_throw (by simp) (by simp) ip
      | IsNot e2 => exact invOn_throw (by simp) (by simp) ip
      | SubExpression e2 => exact invOn_throw (by simp) (by simp) ip
      | Ternary c l r => exact invOn_throw (by simp) (by simp) ip
      | Value v => exact invOn_throw (by simp) (by simp) ip
      | Operator op l r => exact invOn_throw (by simp) (by simp) ip
      | Cast e2 t => exact invOn_throw (by simp) (by simp) ip
    · -- execute_statements
      intro stmts ae
      cases stmts with
      | nil =>
        simp only [execute_statements]
        exact invOn_pure ip none
      | cons statement rest =>
        simp only [execute_statements]
        exact invOn_bind (invOn_increment_expr ip) fun _ => IHstmtsInner statement rest ae
    · -- while_loop
      intro c b
      simp only [while_loop]
      refine invOn_bind (IHev none true c) fun cv => ?_
      refine invOn_bind (invOn_liftE (to_bool_ok cv) ip) fun cb => ?_
      split
      · exact invOn_pure ip none
      · refine invOn_bind (IHstmts b false) fun r => ?_
        cases r with
        | some v => exact invOn_pure ip _
        | none =>
          refine invOn_bind (invOn_getCtx ip) fun ctx2 => ?_
          split
          · exact invOn_bind (invOn_set_loop_breakM ip false) fun _ => invOn_pure ip none
          · split
            · exact invOn_bind (invOn_set_loop_continueM ip false) fun _ => IHwhile c b
            · exact invOn_bind (invOn_pure ip ()) fun _ => IHwhile c b
    · -- for_loop
      intro c i b
      simp only [for_loop]
      refine invOn_bind (IHev none true c) fun cv => ?_
      refine invOn_bind (invOn_liftE (to_bool_ok cv) ip) fun cb => ?_
      split
      · exact invOn_pure ip none
      · refine invOn_bind (IHexpr none true i) fun rinc => ?_
        split
        · exact invOn_throw (by simp) (by simp) ip
        · refine invOn_bind (IHstmts b false) fun r => ?_
          cases r with
          | some v => exact invOn_pure ip _
          | none =>
            refine invOn_bind (invOn_getCtx ip) fun ctx2 => ?_
            split
            · exact invOn_bind (invOn_set_loop_breakM ip false) fun _ => invOn_pure ip none
            · by_cases hlc : ctx2.loop_continue = true
              · simp only [if_pos hlc]
                exact invOn_bind (invOn_set_loop_continueM ip false) fun _ => IHfor c i b
              · simp only [if_neg hlc]
                exact invOn_bind (invOn_pure ip ()) fun _ => IHfor c i b
    · -- foreach_loop
      intro v vs b
      cases vs with
      | nil =>
        simp only [foreach_loop]
        exact invOn_pure ip none
      | cons val restv =>
        simp only [foreach_loop]
        refine invOn_bind (invOn_set_variable_valueM ip v val) fun _ => ?_
        refine invOn_bind (IHstmts b false) fun r => ?_
        cases r with
        | some rv2 => exact invOn_pure ip _
        | none =>
          refine invOn_bind (invOn_getCtx ip) fun ctx2 => ?_
          split
          · exact invOn_bind (invOn_set_loop_breakM ip false) fun _ => invOn_pure ip none
          · split
            · exact invOn_bind (invOn_set_loop_continueM ip false) fun _ => IHfeach v restv b
            · exact invOn_bind (invOn_pure ip ()) fun _ => IHfeach v restv b
    · -- execute_function
      intro f ti vs hnf
      simp only [execute_function]
      split
      · exact invOn_throw (by simp) (by simp) ip
      · cases f with
        | Native nf => exact invOn_liftE (hnf ti vs) ip
        | Custom cf =>
          refine invOn_fn_body ?_ (stInvOn_of_invOn (IHstmts cf.statements false))
          refine stInvOn_of_invOn ?_
          split
          · split
            · split
              · exact invOn_bind (invOn_pure ip _) fun value_type =>
                  invOn_register_variableM ip _ _
              · exact invOn_bind (invOn_throw (by simp) (by simp) ip) fun value_type =>
                  invOn_register_variableM ip _ _
            · exact invOn_throw (by simp) (by simp) ip
          · exact invOn_pure ip ()

    · -- call_resolved
      intro ov name values
      cases ov with
      | some v =>
        simp only [call_resolved]
        refine crInv_liftE_bind (get_type_from_value_ok ip v) fun vt => ?_
        refine crInv_liftE_bind (get_types_from_values_ok ip values) fun types => ?_
        refine crInv_liftE_bind_if NativeOkF (get_function_ok ip name (some vt) types)
          (fun f2 hf2 => get_function_native_ok hip hf2) fun func hfunc => ?_
        exact crInv_tryM (IHfn func (some v) values hfunc)
      | none =>
        simp only [call_resolved]
        refine crInv_liftE_bind (get_types_from_values_ok ip values) fun types => ?_
        refine crInv_liftE_bind_if NativeOkF (get_function_ok ip name none types)
          (fun f2 hf2 => get_function_native_ok hip hf2) fun func hfunc => ?_
        exact crInv_tryM (IHfn func none values hfunc)
    · -- execute_statements_inner
      intro statement rest ae
      simp only [execute_statements_inner]
      refine invOn_bind (invOn_getCtx ip) fun ctx2 => ?_
      split
      · exact invOn_pure ip none
      · cases statement with
          | Break =>
            dsimp only
            exact invOn_bind (invOn_set_loop_breakM ip true) fun _ => IHstmts rest false
          | Continue =>
            dsimp only
            exact invOn_bind (invOn_set_loop_continueM ip true) fun _ => IHstmts rest false
          | Variable var =>
            dsimp only
            refine invOn_bind (IHev none true var.value) fun value => ?_
            exact invOn_bind (invOn_register_variableM ip var.name ⟨value, var.value_type⟩)
              fun _ => IHstmts rest false
          | If condition body =>
            dsimp only
            refine invOn_bind (IHev none true condition) fun cv => ?_
            refine invOn_bind (invOn_liftE (to_bool_ok cv) ip) fun cb => ?_
            split
            · exact invOn_scoped (IHstmts body false) (IHstmts rest ae)
            · exact IHstmts rest true
          | ElseIf condition body =>
            dsimp only
            split
            · refine invOn_bind (IHev none true condition) fun cv => ?_
              refine invOn_bind (invOn_liftE (to_bool_ok cv) ip) fun cb => ?_
              split
              · exact invOn_scoped (IHstmts body false) (IHstmts rest ae)
              · exact IHstmts rest true
            · exact IHstmts rest ae
          | Else body =>
            dsimp only
            split
            · exact invOn_scoped (IHstmts body false) (IHstmts rest false)
            · exact IHstmts rest false
          | For var condition increment body =>
            dsimp only
            exact invOn_scoped_reg (IHev none true var.value)
              (IHfor condition increment body) (IHstmts rest false)
          | ForEach var expr body =>
            dsimp only
            refine invOn_bind (IHev none true expr) fun vv => ?_
            refine invOn_bind (invOn_liftE (to_vec_ok vv) ip) fun values => ?_
            cases values with
            | nil => exact IHstmts rest false
            | cons first vtail =>
              exact invOn_scoped_reg (invOn_liftE (get_type_from_value_ok ip first) ip)
                (IHfeach var (first :: vtail) body) (IHstmts rest false)
          | While condition body =>
            dsimp only
            exact invOn_scoped (IHwhile condition body) (IHstmts rest false)
          | Return opt =>
            dsimp only
            cases opt with
            | some v =>
              exact invOn_bind (IHev none true v) fun value => invOn_pure ip _
            | none => exact invOn_pure ip none
          | Scope body =>
            dsimp only
            exact invOn_scoped (IHstmts body false) (IHstmts rest false)
          | Expression e =>
            dsimp only
            exact invOn_bind (IHexpr none true e) fun _ => IHstmts rest false
end Interp

namespace Interp

theorem nativesOk_mkIp (me mr : Nat) : NativesOk (mkIp me mr) := by
  intro f hf
  exact absurd hf (List.not_mem_nil f)

/-- Reaching the enabled limit makes `increment_expr` trip after the bump. -/
theorem increment_trip {ip : Interpreter} {st : EState} (ctx : Context)
    (hm0 : ip.max_expr ≠ 0) (hle : ip.max_expr ≤ st.count_expr + 1) :
    increment_expr ip st ctx =
      (Res.err .LimitReached, { st with count_expr := st.count_expr + 1 }, ctx) := by
  unfold increment_expr
  dsimp only
  split
  · rfl
  · rename_i hcond
    exact absurd (by simp [hm0, hle]) hcond

/-- C1: both the expression evaluator and the statement loop bump
`count_expr` via `increment_expr` before dispatching on the node, and
`increment_expr` fails with `LimitReached` exactly when the limit is
enabled and the incremented count has reached it (`>=`, not strictly
exceeded): the source guard is `count_expr >= max_expressions` after the
increment. Under those conditions any expression or statement fails
immediately, with nothing but the counter touched. -/
theorem claim_C1 (ip : Interpreter) :
    (∀ (fuel : Nat) (ov : Option Value) (hc : Bool) (e : Expression),
      execute_expression ip (fuel+1) ov hc e =
        (do
          increment_expr ip
          execute_expression_inner ip fuel ov hc e)) ∧
    (∀ (fuel : Nat) (stmt : Statement) (rest : List Statement) (ae : Bool),
      execute_statements ip (fuel+1) (stmt :: rest) ae =
        (do
          increment_expr ip
          execute_statements_inner ip fuel stmt rest ae)) ∧
    (∀ (st : EState) (ctx : Context),
      increment_expr ip st ctx =
        if ip.max_expr != 0 && ip.max_expr ≤ st.count_expr + 1 then
          (Res.err .LimitReached, { st with count_expr := st.count_expr + 1 }, ctx)
        else (Res.ok (), { st with count_expr := st.count_expr + 1 }, ctx)) ∧
    (∀ (fuel : Nat) (ov : Option Value) (hc : Bool) (e : Expression)
      (st : EState) (ctx : Context),
      ip.max_expr ≠ 0 → ip.max_expr ≤ st.count_expr + 1 →
      execute_expression ip (fuel+1) ov hc e st ctx =
        (Res.err .LimitReached, { st with count_expr := st.count_expr + 1 }, ctx)) ∧
    (∀ (fuel : Nat) (stmt : Statement) (rest : List Statement) (ae : Bool)
      (st : EState) (ctx : Context),
      ip.max_expr ≠ 0 → ip.max_expr ≤ st.count_expr + 1 →
      execute_statements ip (fuel+1) (stmt :: rest) ae st ctx =
        (Res.err .LimitReached, { st with count_expr := st.count_expr + 1 }, ctx)) :=
  ⟨fun _ _ _ _ => rfl, fun _ _ _ _ => rfl, fun _ _ => rfl,
   fun _ _ _ _ _ ctx hm0 hle => bind_err_at (increment_trip ctx hm0 hle),
   fun _ _ _ _ _ ctx hm0 hle => bind_err_at (increment_trip ctx hm0 hle)⟩

theorem claim_C1_witness :
    (mkIp 1 0).max_expr ≠ 0 ∧ (mkIp 1 0).max_expr ≤ 0 + 1 ∧
    execute_statements (mkIp 1 0) 1 [.Break] false ⟨0, 0⟩ Context.new =
      (Res.err .LimitReached, ⟨1, 0⟩, Context.new) ∧
    execute_expression (mkIp 1 0) 1 none true (.Value .Null) ⟨0, 0⟩ Context.new =
      (Res.err .LimitReached, ⟨1, 0⟩, Context.new) :=
  ⟨by decide, by decide,
   (claim_C1 (mkIp 1 0)).2.2.2.2 0 .Break [] false ⟨0, 0⟩ Context.new
     (by decide) (by decide),
   (claim_C1 (mkIp 1 0)).2.2.2.1 0 none true (.Value .Null) ⟨0, 0⟩ Context.new
     (by decide) (by decide)⟩

/-- C1 counterexample to the spec sentence: with `max_expressions = 1`,
the very first increment takes the running count to 1, which does not
exceed the limit, yet the evaluator fails with `LimitReached`. -/
theorem claim_C1_counterexample :
    (increment_expr (mkIp 1 0) ⟨0, 0⟩ Context.new).1 = Res.err .LimitReached ∧
    (⟨0, 0⟩ : EState).count_expr + 1 ≤ (mkIp 1 0).max_expr :=
  ⟨rfl, by decide⟩

/-- C3: the modulo arms (binary `%` and `%=`) call Rust `%` with no zero
check, so a zero right operand panics the interpreter (modelled
`Res.rustPanic`) instead of returning `DivByZero`; division does check
and returns the `DivByZero` error value. -/
theorem claim_C3 (ip : Interpreter) (f a : Nat) (st : EState) (ctx : Context) :
    binary_op_value ip f .Modulo .Int .Int (.Int a) (.Int 0) st ctx =
      (Res.rustPanic, st, ctx) ∧
    assign_op_value .AssignModulo .Int (.Int a) (.Int 0) st ctx =
      (Res.rustPanic, st, ctx) ∧
    binary_op_value ip f .Divide .Int .Int (.Int a) (.Int 0) st ctx =
      (Res.err .DivByZero, st, ctx) :=
  ⟨rfl, rfl, rfl⟩

/-- C4: after any successful run of a statement list the scope depth is
restored, and in every run (errors included) the scope depth never
decreases; the error path does not pop the scopes it pushed. -/
theorem claim_C4 (ip : Interpreter) (hip : NativesOk ip) :
    (∀ (fuel : Nat) (stmts : List Statement) (ae : Bool) (st : EState) (ctx : Context)
      (r : Option Value) (st1 : EState) (ctx1 : Context),
      execute_statements ip fuel stmts ae st ctx = (Res.ok r, st1, ctx1) →
      ctx1.scopes.length = ctx.scopes.length) ∧
    (∀ (fuel : Nat) (stmts : List Statement) (ae : Bool) (st : EState) (ctx : Context),
      ctx.scopes.length ≤ (execute_statements ip fuel stmts ae st ctx).2.2.scopes.length) := by
  constructor
  · intro fuel stmts ae st ctx r st1 ctx1 hr
    have h := (evaluator_inv ip hip fuel).2.2.2.2.2.2.1 stmts ae st ctx
    rw [hr] at h
    exact h.scopes_ok ⟨r, rfl⟩
  · intro fuel stmts ae st ctx
    exact ((evaluator_inv ip hip fuel).2.2.2.2.2.2.1 stmts ae st ctx).scopes_mono

theorem claim_C4_witness :
    execute_statements (mkIp 0 0) 1 [] false ⟨0, 0⟩ ⟨[[]], false, false⟩ =
      (Res.ok none, ⟨0, 0⟩, ⟨[[]], false, false⟩) ∧
    (⟨[[]], false, false⟩ : Context).scopes.length =
      (⟨[[]], false, false⟩ : Context).scopes.length :=
  ⟨rfl, (claim_C4 (mkIp 0 0) (nativesOk_mkIp 0 0)).1 1 [] false ⟨0, 0⟩
    ⟨[[]], false, false⟩ none ⟨0, 0⟩ ⟨[[]], false, false⟩ rfl⟩

/-- C4 counterexample to the spec sentence: an `If` whose body errors
propagates the error without popping the scope it pushed; the final
scope depth exceeds the pre-call depth by one. -/
theorem claim_C4_counterexample :
    execute_statements (mkIp 0 0) 10
        [.If (.Value (.Boolean true)) [.Expression (.IsNot (.Value (.Int 0)))]]
        false ⟨0, 0⟩ Context.new =
      (Res.err (.InvalidValue (.Int 0) .Boolean), ⟨5, 0⟩, ⟨[[]], false, false⟩) ∧
    (⟨[[]], false, false⟩ : Context).scopes.length = Context.new.scopes.length + 1 :=
  ⟨rfl, rfl⟩

/-- C10: with `max_expressions = 0` the expression meter is disabled: no
run of the expression evaluator or of the statement loop ever fails with
`LimitReached`. -/
theorem claim_C10 (ip : Interpreter) (hip : NativesOk ip) (hme : ip.max_expr = 0) :
    (∀ (fuel : Nat) (ov : Option Value) (hc : Bool) (e : Expression)
      (st : EState) (ctx : Context),
      (execute_expression ip fuel ov hc e st ctx).1 ≠ Res.err .LimitReached) ∧
    (∀ (fuel : Nat) (stmts : List Statement) (ae : Bool) (st : EState) (ctx : Context),
      (execute_statements ip fuel stmts ae st ctx).1 ≠ Res.err .LimitReached) := by
  constructor
  · intro fuel ov hc e st ctx hcon
    exact ((evaluator_inv ip hip fuel).1 ov hc e st ctx).limit hcon |>.1 hme
  · intro fuel stmts ae st ctx hcon
    exact ((evaluator_inv ip hip fuel).2.2.2.2.2.2.1 stmts ae st ctx).limit hcon |>.1 hme

theorem claim_C10_witness :
    (mkIp 0 0).max_expr = 0 ∧
    (execute_expression (mkIp 0 0) 2 none true (.Value .Null) ⟨5, 0⟩ Context.new).1 ≠
      Res.err .LimitReached :=
  ⟨rfl, (claim_C10 (mkIp 0 0) (nativesOk_mkIp 0 0) rfl).1 2 none true (.Value .Null)
    ⟨5, 0⟩ Context.new⟩

end Interp

namespace Interp

/-- An `M`-valued `if` applied to a state and context reduces to its
true branch when the condition holds. -/
theorem ite_app {c : Prop} [Decidable c] (h : c) (m1 m2 : M α)
    (st : EState) (ctx : Context) : (if c then m1 else m2) st ctx = m1 st ctx := by
  rw [if_pos h]

/-- An `M`-valued `if` applied to a state and context reduces to its
false branch when the condition fails. -/
theorem ite_app_neg {c : Prop} [Decidable c] (h : ¬c) (m1 m2 : M α)
    (st : EState) (ctx : Context) : (if c then m1 else m2) st ctx = m2 st ctx := by
  rw [if_neg h]

/-- C2: after the arguments evaluate (left to right, via `eval_each`),
the function-call arm bumps the recursion counter and trips
`RecursiveLimitReached` at its own check exactly when the incremented
depth reaches `max_recursive` (`>=` in the source) — tripping leaves the
counter incremented; otherwise it proceeds to `call_resolved` at the
incremented depth. A resolution error propagates before the decrement
(the counter stays incremented), while a call that returns a value
restores the depth. -/
theorem claim_C2 (ip : Interpreter) (hip : NativesOk ip) :
    (∀ (f : Nat) (ov : Option Value) (hc : Bool) (name : String)
      (params : List Expression) (st st1 : EState) (ctx ctx1 : Context)
      (values : List Value),
      eval_each ip (f+1) hc params st ctx = (Res.ok values, st1, ctx1) →
      (ip.max_recursive ≤ st1.recursive + 1 →
        execute_expression_inner ip (f+2) ov hc (.FunctionCall name params) st ctx =
          (Res.err .RecursiveLimitReached,
            { st1 with recursive := st1.recursive + 1 }, ctx1)) ∧
      (¬ ip.max_recursive ≤ st1.recursive + 1 →
        execute_expression_inner ip (f+2) ov hc (.FunctionCall name params) st ctx =
          (do
            let res ← call_resolved ip (f+1) ov name values
            let st2 ← M.getSt
            M.setSt { st2 with recursive := st2.recursive - 1 }
            M.liftRes res) { st1 with recursive := st1.recursive + 1 } ctx1)) ∧
    (∀ (fuel : Nat) (ov : Option Value) (name : String) (values : List Value)
      (e : InterpreterError) (stE st2 : EState) (ctxE ctx2 : Context),
      call_resolved ip fuel ov name values stE ctxE = (Res.err e, st2, ctx2) →
      (do
        let res ← call_resolved ip fuel ov name values
        let st3 ← M.getSt
        M.setSt { st3 with recursive := st3.recursive - 1 }
        M.liftRes res) stE ctxE = (Res.err e, st2, ctx2)) ∧
    (∀ (fuel : Nat) (ov : Option Value) (hc : Bool) (e : Expression)
      (st : EState) (ctx : Context) (r : Option Value) (st1 : EState) (ctx1 : Context),
      execute_expression ip fuel ov hc e st ctx = (Res.ok r, st1, ctx1) →
      st1.recursive = st.recursive) := by
  refine ⟨?_, ?_, ?_⟩
  · intro f ov hc name params st st1 ctx ctx1 values hargs
    constructor
    · intro hguard
      simp only [execute_expression_inner]
      rw [bind_ok_at hargs]
      exact ite_app hguard _ _ _ _
    · intro hguard
      simp only [execute_expression_inner]
      rw [bind_ok_at hargs]
      exact ite_app_neg hguard _ _ _ _
  · intro fuel ov name values e stE st2 ctxE ctx2 hres
    exact bind_err_at hres
  · intro fuel ov hc e st ctx r st1 ctx1 hr
    have h := (evaluator_inv ip hip fuel).1 ov hc e st ctx
    rw [hr] at h
    exact h.rec_ok ⟨r, rfl⟩

theorem claim_C2_witness :
    eval_each (mkIp 0 2) 1 true [] ⟨0, 1⟩ Context.new = (Res.ok [], ⟨0, 1⟩, Context.new) ∧
    (mkIp 0 2).max_recursive ≤ 1 + 1 ∧
    execute_expression_inner (mkIp 0 2) 2 none true (.FunctionCall "g" []) ⟨0, 1⟩
        Context.new =
      (Res.err .RecursiveLimitReached, ⟨0, 2⟩, Context.new) :=
  ⟨rfl, by decide,
    ((claim_C2 (mkIp 0 2) (nativesOk_mkIp 0 2)).1 0 none true "g" [] ⟨0, 1⟩ ⟨0, 1⟩
      Context.new Context.new [] rfl).1 (by decide)⟩

/-- C2 counterexample to the spec sentence: with `max_recursive = 1` a
first call reaches depth 1, which does not exceed the limit, yet the
evaluator fails with `RecursiveLimitReached` — and the depth counter is
left at 1, not decremented back to 0. A failed resolution
(`FunctionNotFound`) propagates before the decrement too, so the counter
stays incremented although the call returned. -/
theorem claim_C2_counterexample :
    execute_expression_inner (mkIp 0 1) 2 none true (.FunctionCall "f" []) ⟨0, 0⟩
        Context.new =
      (Res.err .RecursiveLimitReached, ⟨0, 1⟩, Context.new) ∧
    ¬ ((mkIp 0 1).max_recursive < 0 + 1) ∧
    execute_expression_inner (mkIp 0 5) 3 none true (.FunctionCall "f" []) ⟨0, 0⟩
        Context.new =
      (Res.err (.FunctionNotFound "f" []), ⟨0, 1⟩, Context.new) ∧
    (⟨0, 1⟩ : EState).recursive ≠ (⟨0, 0⟩ : EState).recursive :=
  ⟨rfl, by decide, rfl, by decide⟩

end Interp

namespace Bytecode.OpCode

/-- C5: every opcode round-trips through its byte (`from_byte ∘ as_byte` is
the identity), `as_byte` lands every opcode in `0..53` and hits each such
byte, and `from_byte` is `none` beyond 53. -/
theorem claim_C5 :
    (∀ op, from_byte (as_byte op) = some op) ∧
    (∀ op, as_byte op ≤ 53) ∧
    (∀ b, b ≤ 53 → ∃ op, from_byte b = some op ∧ as_byte op = b) ∧
    (∀ b, 53 < b → from_byte b = none) := by
  refine ⟨?_, ?_, ?_, ?_⟩
  · intro op
    cases op <;> rfl
  · intro op
    cases op <;> decide
  · intro b hb
    interval_cases b <;> exact ⟨_, rfl, rfl⟩
  · intro b hb
    obtain ⟨k, rfl⟩ : ∃ k, b = k + 54 := ⟨b - 54, by omega⟩
    rfl

theorem claim_C5_witness :
    (54 ≤ 53 → False) ∧ from_byte 54 = none ∧ 7 ≤ 53 ∧
    ∃ op, from_byte 7 = some op ∧ as_byte op = 7 :=
  ⟨by decide, claim_C5.2.2.2 54 (by decide), by decide, claim_C5.2.2.1 7 (by decide)⟩

end Bytecode.OpCode

namespace Tc

/-- C6: the primitive byte encoding is the fixed assignment U8=0, U16=1,
U32=2, U64=3, U128=4, U256=5, Bool=6, String=7; it round-trips through
`primitive_type_from_byte`, is `none` on every non-primitive type, and
`primitive_type_from_byte` is `none` beyond byte 7. -/
theorem claim_C6 :
    (Ty.primitive_byte .U8 = some 0 ∧ Ty.primitive_byte .U16 = some 1 ∧
     Ty.primitive_byte .U32 = some 2 ∧ Ty.primitive_byte .U64 = some 3 ∧
     Ty.primitive_byte .U128 = some 4 ∧ Ty.primitive_byte .U256 = some 5 ∧
     Ty.primitive_byte .Bool = some 6 ∧ Ty.primitive_byte .String = some 7) ∧
    (∀ t b, Ty.primitive_byte t = some b → Ty.primitive_type_from_byte b = some t) ∧
    (∀ t, is_primitive t = false → Ty.primitive_byte t = none) ∧
    (∀ b, 7 < b → Ty.primitive_type_from_byte b = none) := by
  refine ⟨⟨rfl, rfl, rfl, rfl, rfl, rfl, rfl, rfl⟩, ?_, ?_, ?_⟩
  · intro t b h
    cases t
    all_goals first
      | (injection h with h2; subst h2; rfl)
      | exact Option.noConfusion h
  · intro t h
    cases t <;> first | rfl | exact absurd h (by decide)
  · intro b hb
    obtain ⟨k, rfl⟩ : ∃ k, b = k + 8 := ⟨b - 8, by omega⟩
    rfl

theorem claim_C6_witness :
    Ty.primitive_byte (Ty.Array Ty.U8) = none ∧
    Ty.primitive_type_from_byte 3 = some Ty.U64 ∧
    Ty.primitive_type_from_byte 8 = none :=
  ⟨claim_C6.2.2.1 (Ty.Array Ty.U8) rfl, claim_C6.2.1 Ty.U64 3 rfl,
   claim_C6.2.2.2 8 (by decide)⟩

/-- C7: the truncating casts succeed on every integer or boolean source
(low-bits reduction, booleans as 0/1) and fail with `InvalidCastType` on
other sources — but `cast_to_u32`'s failure arm carries `Type::U16`, not
the `U32` target (every other width names its own target). -/
theorem claim_C7 (s : String) (n : Nat) (b : Bool) :
    cast_to_u8 (.String s) = .error (.InvalidCastType .U8) ∧
    cast_to_u16 (.String s) = .error (.InvalidCastType .U16) ∧
    cast_to_u64 (.String s) = .error (.InvalidCastType .U64) ∧
    cast_to_u128 (.String s) = .error (.InvalidCastType .U128) ∧
    cast_to_u256 (.String s) = .error (.InvalidCastType .U256) ∧
    cast_to_u32 (.String s) = .error (.InvalidCastType .U16) ∧
    Ty.U16 ≠ Ty.U32 ∧
    cast_to_u32 (.U64 n) = .ok (rust_as 32 n) ∧
    cast_to_u32 (.U256 n) = .ok (rust_as 32 (U256.low_u64 n)) ∧
    cast_to_u32 (.Boolean b) = .ok (if b then 1 else 0) ∧
    cast_to_u8 (.U128 n) = .ok (rust_as 8 n) :=
  ⟨rfl, rfl, rfl, rfl, rfl, rfl, by decide, rfl, rfl, rfl, rfl⟩

end Tc

namespace Tc

/-- C8: the castable pairs are exactly a numeric width or `Bool` on the
left and, on the right, a different numeric width or `String`; in
particular no numeric type casts to `Bool`. -/
theorem claim_C8 (t u : Ty) :
    is_castable_to t u = true ↔
      ((is_number t = true ∨ t = Ty.Bool) ∧
        ((is_number u = true ∧ u ≠ t) ∨ u = Ty.String)) := by
  cases t <;> cases u <;> simp [is_castable_to, is_number]

/-- C8 counterexample to the spec sentence: `U8` and `Bool` are a pair of
distinct types drawn from the numeric widths together with `Bool`, yet
`U8` is not castable to `Bool`. -/
theorem claim_C8_counterexample :
    is_castable_to Ty.U8 Ty.Bool = false ∧ Ty.U8 ≠ Ty.Bool :=
  ⟨rfl, by decide⟩

/-- C9: `is_compatible_with` is reflexive; every type is compatible with
`Any` and `T` as the argument; two `Array` or two `Optional` types are
compatible exactly when their inners are, in the same orientation; but
two `Range` types recurse with the orientation reversed, and `Any` as
the receiver is not compatible with `Range` types (the source matches on
`other` first). -/
theorem claim_C9 :
    (∀ t, is_compatible_with t t = true) ∧
    (∀ t, is_compatible_with t Ty.Any = true) ∧
    (∀ t, is_compatible_with t Ty.T = true) ∧
    (∀ a b, is_compatible_with (Ty.Array a) (Ty.Array b) = is_compatible_with a b) ∧
    (∀ a b, is_compatible_with (Ty.Optional a) (Ty.Optional b) = is_compatible_with a b) ∧
    (∀ a b, is_compatible_with (Ty.Range a) (Ty.Range b) = is_compatible_with b a) := by
  refine ⟨?_, ?_, ?_, ?_, ?_, ?_⟩
  · intro t
    induction t <;> simp [is_compatible_with, *]
  · intro t
    cases t <;> simp [is_compatible_with]
  · intro t
    cases t <;> simp [is_compatible_with]
  · intro a b
    simp [is_compatible_with]
  · intro a b
    simp [is_compatible_with]
  · intro a b
    simp [is_compatible_with]

/-- C9 counterexample to the spec sentence: `Any` is not compatible with
`Range U8`, and the ranges `Range Any` and `Range (Range U8)` are
compatible although their inner types are not. -/
theorem claim_C9_counterexample :
    is_compatible_with Ty.Any (Ty.Range Ty.U8) = false ∧
    is_compatible_with (Ty.Range Ty.Any) (Ty.Range (Ty.Range Ty.U8)) = true ∧
    is_compatible_with Ty.Any (Ty.Range Ty.U8) ≠
      is_compatible_with (Ty.Range Ty.Any) (Ty.Range (Ty.Range Ty.U8)) := by
  refine ⟨?_, ?_, ?_⟩ <;> simp [is_compatible_with]

end Tc
